import Mathlib

/-!
Shallow embedding of `danielstjules/pattern-emitter` (src/lib/patternEmitter.js).

The source file contains two historical revisions of the library, separated by a
document marker:

* Revision A (lines 1-337): the RegExp-keyed API. `addListener`, `removeListener`
  and `removeAllListeners` accept either an ordinary event type or a `RegExp`;
  pattern state lives in `_patternEvents` (listener buckets keyed by
  `String(regex)`), `_regexes` (the compiled `RegExp` objects), and
  `_regexesCount` (a counter used by `emit`'s fast path).

* Revision B (lines 338-675): the string-pattern API. `addPatternListener`,
  `onceOnPattern`, `removePatternListener`, `removeAllPatternListeners` take a
  string regex source as the pattern key; `new RegExp(pattern)` is compiled on
  registration and there is no `_regexesCount` fast path in `emit`.

Both revisions delegate the literal-bucket bookkeeping to Node's
`events.EventEmitter` (the spec's "conventional observer/notification
primitive"): `_emit`, `_addListener`, `_removeListener`, `_removeAllListeners`,
`listeners`, `listenerCount`.  Those collaborator primitives are embedded here
after Node 0.10's `lib/events.js`, restricted to the part this library relies
on: the single-listener/array bucket representation, append-on-add,
last-occurrence removal by reference or by the `.listener` back-reference,
snapshot-and-invoke dispatch with the reserved `error` event, and the
`listeners`/`listenerCount` accessors.  The `newListener`/`removeListener`
lifecycle notifications and the max-listeners warning are not modelled: no
claim refers to them and no scenario below registers a listener for them.

JavaScript-specific conventions of the embedding:

* Property maps (`_events`, `_patternEvents`, `_regexes`) are association lists
  in key-insertion order; `for (var k in obj)` over `_regexes` is a fold in
  list order, faithful because every `_regexes` key starts with a slash (never
  integer-like).  Assigning `undefined` to a property is modelled as deletion;
  the embedded code never observes the difference (it only reads properties,
  and the one iterated map, `_regexes`, is written only with real values and
  `delete`).  Because deletion plus re-assignment moves a key to the end of the
  insertion order (in JavaScript as in this model), state-preservation theorems
  are stated at lookup level (`MapEq`).
* A listener value is an `LEntry`: an identity `id` (reference equality), the
  function arity `arity` (JavaScript's `Function.length`, read by the
  `!bucket.length` test in `removeListener`), and the optional `.listener`
  back-reference `backRef` installed by once-wrappers.
* A stored bucket value (`BVal`) is a single function or an array whose
  elements may in principle be `undefined` (`none`), as produced by
  `_getMatching`'s `[listeners]` wrap when a `_regexes` key has no bucket.
* Arguments forwarded by `emit` are opaque tokens (`Nat`).
-/

namespace PatternEmitter

/-- An association list with string keys, modelling a JavaScript object used as
a map: key-insertion order, assignment updates in place or appends, `delete`
removes. -/
abbrev JsMap (α : Type) : Type := List (String × α)

namespace JsMap

/-- Property read `obj[k]`: the value at the first occurrence of the key. -/
def lookup {α : Type} : JsMap α → String → Option α
  | [], _ => none
  | (k, v) :: m, key => if k = key then some v else lookup m key

/-- Property write `obj[k] = v` with a defined value: update in place if the
key exists, otherwise append (JavaScript insertion order). -/
def set {α : Type} : JsMap α → String → α → JsMap α
  | [], key, v => [(key, v)]
  | (k, w) :: m, key, v => if k = key then (k, v) :: m else (k, w) :: set m key v

/-- `delete obj[k]`. -/
def erase {α : Type} : JsMap α → String → JsMap α
  | [], _ => []
  | (k, w) :: m, key => if k = key then erase m key else (k, w) :: erase m key

/-- Assignment of a possibly-undefined value: `obj[k] = maybeUndefined`.
Assigning `undefined` is modelled as deletion (see the header comment). -/
def setOpt {α : Type} (m : JsMap α) (key : String) : Option α → JsMap α
  | some v => m.set key v
  | none => m.erase key

/-- The values stored in the map, in list order (used for id-freshness
bookkeeping; a superset of the values reachable by `lookup`). -/
def valuesList {α : Type} (m : JsMap α) : List α := m.map Prod.snd

end JsMap

/-- Lookup-level equality of two maps: every property read agrees. -/
def MapEq {α : Type} (m m' : JsMap α) : Prop := ∀ k, m.lookup k = m'.lookup k

/-- A listener function value: identity, arity (`Function.length`) and the
optional `.listener` back-reference set by once-wrappers. -/
structure LEntry where
  id : Nat
  arity : Nat
  backRef : Option Nat
deriving DecidableEq, Repr

/-- A value stored in an events bucket: a single function, or an array whose
elements are functions or (in principle) `undefined`. -/
inductive BVal where
  | one (f : LEntry)
  | arr (xs : List (Option LEntry))
deriving DecidableEq, Repr

/-- Flattening used throughout the source: a single function behaves as the
one-element array `[listeners]`. -/
def BVal.toList : BVal → List (Option LEntry)
  | .one f => [some f]
  | .arr xs => xs

/-- JavaScript's `.length` of a stored bucket value: array length for an
array, the function's arity for a single function. -/
def BVal.jsLength : BVal → Nat
  | .one f => f.arity
  | .arr xs => xs.length

/-- Listener identities occurring in a bucket value. -/
def BVal.ids (b : BVal) : List Nat := b.toList.filterMap (fun x => x.map LEntry.id)

/-- A compiled JavaScript regular expression object: its textual form
`String(r)` and its `test` predicate.  Matching itself is performed by the
JavaScript engine; the embedding carries it as a function. -/
structure JsRegex where
  src : String
  test : String → Bool

/-- A JavaScript value used as an event type: a string, a `RegExp` object, or
any other value.  `other k` records only the property-key coercion
`String(v)`, which is all the embedded code observes of a non-string,
non-RegExp type. -/
inductive EvVal where
  | str (s : String)
  | regex (r : JsRegex)
  | other (k : String)

/-- The property key `obj[type]` coerces the event type to. -/
def EvVal.key : EvVal → String
  | .str s => s
  | .regex r => r.src
  | .other k => k

/-- `typeof type === 'string'`. -/
def EvVal.isStr : EvVal → Bool
  | .str _ => true
  | _ => false

/-- `type === 'error'` (strict equality: true only for the string). -/
def EvVal.isErrorType : EvVal → Bool
  | .str s => s = "error"
  | _ => false

/-- A listener argument at an API boundary: a function or any non-function
value (which makes the collaborator throw a `TypeError`). -/
inductive JsArg where
  | fn (f : LEntry)
  | notFn

/-- Errors propagating out of the embedded operations. -/
inductive JsErr where
  | typeError
  | unhandledError
  | listenerThrew
  | outOfFuel
deriving DecidableEq, Repr

/-! ## The collaborator: Node 0.10 EventEmitter registry primitives -/

/-- `EventEmitter.prototype.addListener` on the bucket map (without the
`newListener` notification and max-listeners warning; see header): throws
`TypeError` for a non-function listener, stores a single function for the
first listener, otherwise appends to the array. -/
def eeAddListener (ev : JsMap BVal) (key : String) (l : JsArg) :
    Except JsErr (JsMap BVal) :=
  match l with
  | .notFn => .error .typeError
  | .fn f =>
    match ev.lookup key with
    | none => .ok (ev.set key (.one f))
    | some (.one g) => .ok (ev.set key (.arr [some g, some f]))
    | some (.arr gs) => .ok (ev.set key (.arr (gs ++ [some f])))

/-- The match test of `removeListener`'s scan:
`cand === listener || (cand.listener && cand.listener === listener)`. -/
def entryMatches (cand : LEntry) (target : Nat) : Bool :=
  cand.id = target || cand.backRef = some target

/-- The backwards scan of `EventEmitter.prototype.removeListener` over an array
bucket (`for (i = length; i-- > 0;)`): removes the last matching element.
Reading `.listener` of an `undefined` element throws, as in the source. -/
def scanRemove (target : Nat) : List (Option LEntry) →
    Except JsErr (Option (List (Option LEntry)))
  | [] => .ok none
  | x :: xs =>
    match scanRemove target xs with
    | .error e => .error e
    | .ok (some xs') => .ok (some (x :: xs'))
    | .ok none =>
      match x with
      | some f => if entryMatches f target then .ok (some xs) else .ok none
      | none => .error .typeError

/-- `EventEmitter.prototype.removeListener` on the bucket map (without the
`removeListener` notification): no-op when the key or the listener is absent;
deletes the entry when the single listener or the only array element is
removed. -/
def eeRemoveListener (ev : JsMap BVal) (key : String) (l : JsArg) :
    Except JsErr (JsMap BVal) :=
  match l with
  | .notFn => .error .typeError
  | .fn target =>
    match ev.lookup key with
    | none => .ok ev
    | some (.one f) =>
      if entryMatches f target.id then .ok (ev.erase key) else .ok ev
    | some (.arr fs) =>
      match scanRemove target.id fs with
      | .error e => .error e
      | .ok none => .ok ev
      | .ok (some []) => .ok (ev.erase key)
      | .ok (some fs') => .ok (ev.set key (.arr fs'))

/-- `EventEmitter.prototype.removeAllListeners(type)` on the bucket map
(without the per-listener notifications): deletes the bucket. -/
def eeRemoveAll (ev : JsMap BVal) (key : String) : JsMap BVal :=
  ev.erase key

/-- `EventEmitter.prototype.listeners`: the bucket as an array (a copy). -/
def eeListeners (ev : JsMap BVal) (key : String) : List (Option LEntry) :=
  match ev.lookup key with
  | none => []
  | some b => b.toList

/-- `EventEmitter.listenerCount`: 0 for no bucket, 1 for a single function,
the array length otherwise. -/
def eeListenerCount (ev : JsMap BVal) (key : String) : Nat :=
  match ev.lookup key with
  | none => 0
  | some (.one _) => 1
  | some (.arr xs) => xs.length

/-! ## PatternEmitter state and registry operations -/

/-- The mutable state of a `PatternEmitter` instance.  `invoked` records the
per-closure `invoked` flags of `onceOnPattern` wrappers (identified by the id
of the wrapper function). -/
structure EState where
  events : JsMap BVal
  patternEvents : JsMap BVal
  regexes : JsMap JsRegex
  regexesCount : Int
  event : EvVal
  invoked : List Nat

/-- The state built by the constructor. -/
def initState : EState :=
  { events := [], patternEvents := [], regexes := [], regexesCount := 0,
    event := .str "", invoked := [] }

/-- `PatternEmitter.prototype._getMatching` (identical in both revisions):
start from the literal bucket; for a non-string type return it as-is;
otherwise walk `_regexes` in insertion order and concatenate the buckets of
matching patterns, flattening single functions.  The `!regex || !(regex
instanceof RegExp)` guard of the source is omitted: every value this model
stores in `regexes` is a RegExp object, so the guard never skips.  When a
matching `_regexes` key has no `_patternEvents` bucket, the `[listeners]` wrap
contributes the one-element array `[undefined]`, as in the source. -/
def getMatching (s : EState) (t : EvVal) : Option BVal :=
  let matching := s.events.lookup t.key
  if ¬ t.isStr then matching
  else
    s.regexes.foldl
      (fun acc pr =>
        if pr.2.test t.key then
          match acc with
          | none => s.patternEvents.lookup pr.1
          | some m =>
            let listeners : List (Option LEntry) :=
              match s.patternEvents.lookup pr.1 with
              | some (.arr xs) => xs
              | some (.one f) => [some f]
              | none => [none]
            some (.arr (m.toList ++ listeners))
        else acc)
      matching

/-- `PatternEmitter._apply` (identical in both revisions): swap the literal
bucket for `pattern` with the pattern bucket, run the wrapped operation, then
swap back — moving the operation's effect on the literal entry into the
pattern map and restoring the literal entry — and only then let an error
propagate. -/
def applyOp {α : Type} (s : EState) (pattern : String)
    (fn : EState → EState × Except JsErr α) : EState × Except JsErr α :=
  let typeListeners := s.events.lookup pattern
  let s1 := { s with events := s.events.setOpt pattern (s.patternEvents.lookup pattern) }
  let res := fn s1
  let s2 := res.1
  let s3 := { s2 with patternEvents := s2.patternEvents.setOpt pattern (s2.events.lookup pattern) }
  let s4 := { s3 with events := s3.events.setOpt pattern typeListeners }
  (s4, res.2)

/-- Revision A `PatternEmitter.prototype.addListener` (lines 90-106): for a
non-RegExp type delegate to the collaborator; for a RegExp, set `event`,
increment `_regexesCount`, register into the pattern bucket through `_apply`,
and store the compiled pattern if its key is new.  Note that `event` and the
counter are mutated before the collaborator's `TypeError` for a non-function
listener can fire. -/
def addListenerA (s : EState) (t : EvVal) (l : JsArg) : EState × Option JsErr :=
  match t with
  | .regex r =>
    let pattern := r.src
    let s0 := { s with event := .str "newListener", regexesCount := s.regexesCount + 1 }
    let ar := applyOp s0 pattern (fun st =>
      match eeAddListener st.events pattern l with
      | .ok ev => ({ st with events := ev }, .ok ())
      | .error e => (st, .error e))
    match ar.2 with
    | .error e => (ar.1, some e)
    | .ok _ =>
      let s2 := ar.1
      if (s2.regexes.lookup pattern).isSome then (s2, none)
      else ({ s2 with regexes := s2.regexes.set pattern r }, none)
  | _ =>
    match eeAddListener s.events t.key l with
    | .ok ev => ({ s with events := ev }, none)
    | .error e => (s, some e)

/-- Revision A `PatternEmitter.prototype.removeListener` (lines 126-147): for
a non-RegExp type delegate to the collaborator; for a RegExp, set `event`,
decrement `_regexesCount` (unconditionally, even when nothing is removed),
remove through `_apply`, then delete the pattern bucket when it is absent or
its `.length` is falsy (for a single stored function this reads the
function's arity), and delete the compiled pattern when its bucket is gone. -/
def removeListenerA (s : EState) (t : EvVal) (l : JsArg) : EState × Option JsErr :=
  match t with
  | .regex r =>
    let pattern := r.src
    let s0 := { s with event := .str "removeListener", regexesCount := s.regexesCount - 1 }
    let ar := applyOp s0 pattern (fun st =>
      match eeRemoveListener st.events pattern l with
      | .ok ev => ({ st with events := ev }, .ok ())
      | .error e => (st, .error e))
    match ar.2 with
    | .error e => (ar.1, some e)
    | .ok _ =>
      let s2 := ar.1
      let s3 :=
        match s2.patternEvents.lookup pattern with
        | none => s2
        | some b =>
          if b.jsLength = 0 then { s2 with patternEvents := s2.patternEvents.erase pattern }
          else s2
      let s4 :=
        if (s3.patternEvents.lookup pattern).isNone ∧ (s3.regexes.lookup pattern).isSome then
          { s3 with regexes := s3.regexes.erase pattern }
        else s3
      (s4, none)
  | _ =>
    match eeRemoveListener s.events t.key l with
    | .ok ev => ({ s with events := ev }, none)
    | .error e => (s, some e)

/-- Revision A `PatternEmitter.prototype.removeAllListeners` (lines 159-176):
for a RegExp, set `event`, clear the pattern bucket through `_apply`, then
delete the bucket and the compiled pattern.  `_regexesCount` is not
adjusted. -/
def removeAllListenersA (s : EState) (t : EvVal) : EState × Option JsErr :=
  match t with
  | .regex r =>
    let pattern := r.src
    let s0 := { s with event := .str "removeListener" }
    let ar := applyOp s0 pattern (fun st =>
      ({ st with events := eeRemoveAll st.events pattern }, Except.ok ()))
    let s2 := ar.1
    let s3 := { s2 with patternEvents := s2.patternEvents.erase pattern }
    let s4 :=
      if (s3.regexes.lookup pattern).isSome then
        { s3 with regexes := s3.regexes.erase pattern }
      else s3
    (s4, none)
  | _ => ({ s with events := eeRemoveAll s.events t.key }, none)

/-- Revision A `PatternEmitter.prototype.patternListeners` (lines 186-192):
`TypeError` unless the argument is a RegExp, else the pattern bucket as an
array, read through `_apply` and the collaborator's `listeners`. -/
def patternListenersA (s : EState) (t : EvVal) :
    EState × Except JsErr (List (Option LEntry)) :=
  match t with
  | .regex r =>
    applyOp s r.src (fun st => (st, .ok (eeListeners st.events r.src)))
  | _ => (s, .error .typeError)

/-- `PatternEmitter.prototype.matchingListeners` (identical in both
revisions): `_getMatching`, with `undefined` as the empty array and a single
function wrapped in an array. -/
def matchingListenersOp (s : EState) (t : EvVal) : List (Option LEntry) :=
  match getMatching s t with
  | none => []
  | some (.one f) => [some f]
  | some (.arr xs) => xs

/-- Revision A static `PatternEmitter.patternListenerCount` (lines 239-246):
`TypeError` unless a RegExp, else the collaborator's `listenerCount` read
through `_apply`. -/
def patternListenerCountA (s : EState) (t : EvVal) : EState × Except JsErr Nat :=
  match t with
  | .regex r =>
    applyOp s r.src (fun st => (st, .ok (eeListenerCount st.events r.src)))
  | _ => (s, .error .typeError)

/-- Static `PatternEmitter.listenerCount` (lines 225-227): an alias for the
collaborator's count of the literal bucket. -/
def listenerCountOp (s : EState) (t : EvVal) : Nat :=
  eeListenerCount s.events t.key

/-- Static `PatternEmitter.matchingListenerCount` (identical in both
revisions): the length of `matchingListeners`. -/
def matchingListenerCountOp (s : EState) (t : EvVal) : Nat :=
  (matchingListenersOp s t).length

/-! ## Revision B registry operations (string-pattern API) -/

/-- Revision B `PatternEmitter.prototype.addPatternListener` (lines 411-424):
`TypeError` unless the pattern is a string (before any mutation); then set
`event`, register through `_apply`, and compile `new RegExp(pattern)` if the
key is new.  `compile` stands for the engine's regex compiler. -/
def addPatternListener (compile : String → String → Bool) (s : EState)
    (p : EvVal) (l : JsArg) : EState × Option JsErr :=
  if ¬ p.isStr then (s, some .typeError)
  else
    let pattern := p.key
    let s0 := { s with event := .str "newListener" }
    let ar := applyOp s0 pattern (fun st =>
      match eeAddListener st.events pattern l with
      | .ok ev => ({ st with events := ev }, .ok ())
      | .error e => (st, .error e))
    match ar.2 with
    | .error e => (ar.1, some e)
    | .ok _ =>
      let s2 := ar.1
      if (s2.regexes.lookup pattern).isSome then (s2, none)
      else ({ s2 with regexes := s2.regexes.set pattern ⟨pattern, compile pattern⟩ }, none)

/-- Revision B `PatternEmitter.prototype.removePatternListener`
(lines 484-502): `TypeError` unless the pattern is a string; then set `event`,
remove through `_apply`, delete the bucket when absent or of falsy `.length`,
and delete the compiled pattern when its bucket is gone. -/
def removePatternListenerOp (s : EState) (p : EvVal) (l : JsArg) :
    EState × Option JsErr :=
  if ¬ p.isStr then (s, some .typeError)
  else
    let pattern := p.key
    let s0 := { s with event := .str "removeListener" }
    let ar := applyOp s0 pattern (fun st =>
      match eeRemoveListener st.events pattern l with
      | .ok ev => ({ st with events := ev }, .ok ())
      | .error e => (st, .error e))
    match ar.2 with
    | .error e => (ar.1, some e)
    | .ok _ =>
      let s2 := ar.1
      let s3 :=
        match s2.patternEvents.lookup pattern with
        | none => s2
        | some b =>
          if b.jsLength = 0 then { s2 with patternEvents := s2.patternEvents.erase pattern }
          else s2
      let s4 :=
        if (s3.patternEvents.lookup pattern).isNone ∧ (s3.regexes.lookup pattern).isSome then
          { s3 with regexes := s3.regexes.erase pattern }
        else s3
      (s4, none)

/-- Revision B `PatternEmitter.prototype.removeAllPatternListeners`
(lines 514-529). -/
def removeAllPatternListeners (s : EState) (p : EvVal) : EState × Option JsErr :=
  if ¬ p.isStr then (s, some .typeError)
  else
    let pattern := p.key
    let s0 := { s with event := .str "removeListener" }
    let ar := applyOp s0 pattern (fun st =>
      ({ st with events := eeRemoveAll st.events pattern }, Except.ok ()))
    let s2 := ar.1
    let s3 := { s2 with patternEvents := s2.patternEvents.erase pattern }
    let s4 :=
      if (s3.regexes.lookup pattern).isSome then
        { s3 with regexes := s3.regexes.erase pattern }
      else s3
    (s4, none)

/-- Revision B `PatternEmitter.prototype.onceOnPattern` (lines 447-471):
validate the pattern and the listener, then register the `invokeOnce` wrapper
(arity 0, `.listener` back-reference to the wrapped callback) through
`onPattern`.  The fresh closure is identified by `wrapperId`, whose `invoked`
flag starts unset; its runtime behaviour is `Behavior.onceWrap` in the
interpreter below. -/
def onceOnPattern (compile : String → String → Bool) (s : EState)
    (p : EvVal) (l : JsArg) (wrapperId : Nat) : EState × Option JsErr :=
  if ¬ p.isStr then (s, some .typeError)
  else
    match l with
    | .notFn => (s, some .typeError)
    | .fn f =>
      addPatternListener compile s p (.fn ⟨wrapperId, 0, some f.id⟩)

/-- Revision B `PatternEmitter.prototype.patternListeners` (lines 539-545). -/
def patternListenersB (s : EState) (p : EvVal) :
    EState × Except JsErr (List (Option LEntry)) :=
  if ¬ p.isStr then (s, .error .typeError)
  else applyOp s p.key (fun st => (st, .ok (eeListeners st.events p.key)))

/-- Revision B static `PatternEmitter.patternListenerCount` (lines 577-584). -/
def patternListenerCountB (s : EState) (p : EvVal) : EState × Except JsErr Nat :=
  if ¬ p.isStr then (s, .error .typeError)
  else applyOp s p.key (fun st => (st, .ok (eeListenerCount st.events p.key)))

/-! ## Dispatch interpreter

Listener bodies are arbitrary code; the interpreter gives each listener
identity a `Behavior`: either straight-line commands (re-emit an event, or
throw), or the `invokeOnce` closure created by `onceOnPattern`.  `Rev` selects
which revision's `emit` a nested emission runs.  Every interpreter step
consumes fuel; exhausted fuel surfaces as the artificial `outOfFuel` error. -/

/-- Which revision's `emit` a nested emission dispatches to. -/
inductive Rev where
  | a
  | b

/-- A straight-line statement of a listener body. -/
inductive Cmd where
  | emitS (name : String) (args : List Nat)
  | throwErr

/-- The runtime behaviour of a listener identity.  `onceWrap pat innerId` is
the body of `invokeOnce` from `onceOnPattern` (lines 458-465): remove itself
from `pattern`, then, unless the closure's `invoked` flag is set, set it and
invoke the wrapped callback with the same arguments. -/
inductive Behavior where
  | plain (body : List Cmd)
  | onceWrap (pattern : String) (innerId : Nat)

/-- One listener invocation in the dispatch trace: which listener ran, the
argument list it received, and the emitter's `event` property as the listener
observed it on entry. -/
structure Inv where
  lid : Nat
  args : List Nat
  seenEvent : EvVal

/-- Setting an `invokeOnce` closure's `invoked` flag (`invoked = true`),
recorded as membership of the wrapper's identity. -/
def pushInvoked (s : EState) (j : Nat) : EState :=
  { s with invoked := j :: s.invoked }

mutual

/-- Run a listener body: a nested `emit` whose error is not caught aborts the
rest of the body, as an uncaught exception would. -/
def runCmds (B : Nat → Behavior) (rev : Rev) :
    Nat → EState → List Cmd → EState × List Inv × Option JsErr
  | 0, s, _ => (s, [], some .outOfFuel)
  | _ + 1, s, [] => (s, [], none)
  | fuel + 1, s, c :: cs =>
    match c with
    | .throwErr => (s, [], some .listenerThrew)
    | .emitS name args =>
      let r :=
        match rev with
        | .a => emitA B rev fuel s (.str name) args
        | .b => emitB B rev fuel s (.str name) args
      match r.2.2 with
      | .error e => (r.1, r.2.1, some e)
      | .ok _ =>
        let r2 := runCmds B rev fuel r.1 cs
        (r2.1, r.2.1 ++ r2.2.1, r2.2.2)

/-- Invoke one element of a dispatch snapshot.  Invoking `undefined` throws.
For an `invokeOnce` closure, removal from the pattern registry happens first,
then the `invoked` flag is tested and set before the wrapped callback runs. -/
def runListener (B : Nat → Behavior) (rev : Rev) :
    Nat → EState → Option LEntry → List Nat → EState × List Inv × Option JsErr
  | 0, s, _, _ => (s, [], some .outOfFuel)
  | _ + 1, s, none, _ => (s, [], some .typeError)
  | fuel + 1, s, some f, args =>
    let inv : Inv := ⟨f.id, args, s.event⟩
    match B f.id with
    | .plain body =>
      let r := runCmds B rev fuel s body
      (r.1, inv :: r.2.1, r.2.2)
    | .onceWrap pat innerId =>
      let rm := removePatternListenerOp s (.str pat) (.fn f)
      match rm.2 with
      | some e => (rm.1, [inv], some e)
      | none =>
        let s1 := rm.1
        if f.id ∈ s1.invoked then (s1, [inv], none)
        else
          let r := runListener B rev fuel (pushInvoked s1 f.id)
            (some ⟨innerId, 0, none⟩) args
          (r.1, inv :: r.2.1, r.2.2)

/-- Invoke the elements of a dispatch snapshot in order; a thrown error skips
the remaining listeners. -/
def runSeq (B : Nat → Behavior) (rev : Rev) :
    Nat → EState → List (Option LEntry) → List Nat → EState × List Inv × Option JsErr
  | 0, s, _, _ => (s, [], some .outOfFuel)
  | _ + 1, s, [], _ => (s, [], none)
  | fuel + 1, s, x :: xs, args =>
    let r := runListener B rev fuel s x args
    match r.2.2 with
    | some e => (r.1, r.2.1, some e)
    | none =>
      let r2 := runSeq B rev fuel r.1 xs args
      (r2.1, r.2.1 ++ r2.2.1, r2.2.2)

/-- The collaborator's `EventEmitter.prototype.emit`: the reserved `error`
type throws when unhandled; no handler returns `false`; otherwise the bucket
is snapshotted and invoked (a single function directly, an array by copy) and
the call returns `true` unless a listener throws. -/
def eeEmit (B : Nat → Behavior) (rev : Rev) :
    Nat → EState → EvVal → List Nat → EState × List Inv × Except JsErr Bool
  | 0, s, _, _ => (s, [], .error .outOfFuel)
  | fuel + 1, s, t, args =>
    let handler := s.events.lookup t.key
    if t.isErrorType ∧ (handler = none ∨ handler = some (.arr [])) then
      (s, [], .error .unhandledError)
    else
      match handler with
      | none => (s, [], .ok false)
      | some (.one f) =>
        let r := runListener B rev fuel s (some f) args
        (r.1, r.2.1, match r.2.2 with | none => .ok true | some e => .error e)
      | some (.arr xs) =>
        let r := runSeq B rev fuel s xs args
        (r.1, r.2.1, match r.2.2 with | none => .ok true | some e => .error e)

/-- Revision A `PatternEmitter.prototype.emit` (lines 51-75): with no pattern
listeners counted, delegate to the collaborator unchanged (in particular
without touching `event`); otherwise record `event`, swap the literal bucket
with the matching sequence, dispatch, and unconditionally restore the saved
literal bucket before any error propagates. -/
def emitA (B : Nat → Behavior) (rev : Rev) :
    Nat → EState → EvVal → List Nat → EState × List Inv × Except JsErr Bool
  | 0, s, _, _ => (s, [], .error .outOfFuel)
  | fuel + 1, s, t, args =>
    if s.regexesCount = 0 then eeEmit B rev fuel s t args
    else
      let sE := { s with event := t }
      let saved := sE.events.lookup t.key
      let m := getMatching sE t
      let sSw := { sE with events := sE.events.setOpt t.key m }
      let r := eeEmit B rev fuel sSw t args
      let sRe := { r.1 with events := r.1.events.setOpt t.key saved }
      (sRe, r.2.1, r.2.2)

/-- Revision B `PatternEmitter.prototype.emit` (lines 378-397): always record
`event`, swap the literal bucket with the matching sequence, dispatch, and
unconditionally restore the saved literal bucket before any error
propagates. -/
def emitB (B : Nat → Behavior) (rev : Rev) :
    Nat → EState → EvVal → List Nat → EState × List Inv × Except JsErr Bool
  | 0, s, _, _ => (s, [], .error .outOfFuel)
  | fuel + 1, s, t, args =>
    let sE := { s with event := t }
    let saved := sE.events.lookup t.key
    let m := getMatching sE t
    let sSw := { sE with events := sE.events.setOpt t.key m }
    let r := eeEmit B rev fuel sSw t args
    let sRe := { r.1 with events := r.1.events.setOpt t.key saved }
    (sRe, r.2.1, r.2.2)

end

/-- How many times listener identity `i` appears in a dispatch trace. -/
def countId (tr : List Inv) (i : Nat) : Nat :=
  (tr.filter (fun v => v.lid == i)).length

/-! ## Spec-side definitions and state invariants -/

/-- `undefined` reads as the empty sequence, a stored value flattens. -/
def flattenOpt : Option BVal → List (Option LEntry)
  | none => []
  | some b => b.toList

/-- Modelled from the spec (§4.2 matching algorithm, §3 ordering invariant),
for comparison with `_getMatching`: the literal bucket for the name first, in
insertion order, followed by the bucket of every registered pattern whose
compiled form matches the name, in pattern-registration order, each bucket in
listener-registration order. -/
def matchingSpec (s : EState) (n : String) : List (Option LEntry) :=
  flattenOpt (s.events.lookup n) ++
  s.regexes.flatMap
    (fun pr => if pr.2.test n then flattenOpt (s.patternEvents.lookup pr.1) else [])

/-- The matching sequence of the claims, for an arbitrary emitted name: the
literal bucket for the name together with the buckets of every registered
pattern whose compiled form matches it; a pattern matches only string
names. -/
def claimMatchingSeq (s : EState) (t : EvVal) : List (Option LEntry) :=
  match t with
  | .str n => matchingSpec s n
  | _ => flattenOpt (s.events.lookup t.key)

/-- Buckets a map can hold in any state reachable by the public API: never an
empty array and never containing an `undefined` element. -/
def BucketsOK (m : JsMap BVal) : Prop :=
  ∀ k b, m.lookup k = some b → b.toList ≠ [] ∧ ∀ x ∈ b.toList, x ≠ none

/-- The registry invariant of claim C3: `_regexes` and `_patternEvents` have
identical key sets, and every pattern key has at least one listener. -/
def RegistryInv (s : EState) : Prop :=
  (∀ p, (s.regexes.lookup p).isSome ↔ (s.patternEvents.lookup p).isSome) ∧
  (∀ p, (s.regexes.lookup p).isSome →
    ∃ b, s.patternEvents.lookup p = some b ∧ b.toList ≠ [])

/-- Well-formedness of an emitter state, as maintained by the public API on
the bug-free paths: sound buckets on both maps, the registry invariant, and a
`_regexesCount` of zero only when no pattern is registered (the fast-path
soundness condition; removing an absent pattern listener violates it, see
claim C6). -/
def WF (s : EState) : Prop :=
  BucketsOK s.events ∧ BucketsOK s.patternEvents ∧ RegistryInv s ∧
  (s.regexesCount = 0 → s.regexes = [])

/-- Every regexes entry matching `n` has a listener bucket (the part of the
registry invariant that the matching fold relies on). -/
def MatchedHaveBuckets (s : EState) (n : String) : Prop :=
  ∀ pr ∈ s.regexes, pr.2.test n = true → (s.patternEvents.lookup pr.1).isSome

/-! ## Map lemmas -/

namespace JsMap

theorem lookup_set_self {α : Type} (m : JsMap α) (k : String) (v : α) :
    (m.set k v).lookup k = some v := by
  induction m with
  | nil => simp [set, lookup]
  | cons hd tl ih =>
    obtain ⟨k', v'⟩ := hd
    by_cases h : k' = k
    · simp [set, lookup, h]
    · simp [set, lookup, h, ih]

theorem lookup_set_ne {α : Type} (m : JsMap α) {k k' : String} (v : α) (h : k' ≠ k) :
    (m.set k v).lookup k' = m.lookup k' := by
  have hk : ¬ k = k' := fun hh => h hh.symm
  induction m with
  | nil => simp [set, lookup, hk]
  | cons hd tl ih =>
    obtain ⟨k0, v0⟩ := hd
    by_cases h0 : k0 = k
    · subst h0
      simp [set, lookup, hk]
    · by_cases h1 : k0 = k'
      · simp [set, lookup, h0, h1, h]
      · simp [set, lookup, h0, h1, ih]

theorem lookup_erase_self {α : Type} (m : JsMap α) (k : String) :
    (m.erase k).lookup k = none := by
  induction m with
  | nil => simp [erase, lookup]
  | cons hd tl ih =>
    obtain ⟨k0, v0⟩ := hd
    by_cases h0 : k0 = k
    · simp [erase, h0, ih]
    · simp [erase, lookup, h0, ih]

theorem lookup_erase_ne {α : Type} (m : JsMap α) {k k' : String} (h : k' ≠ k) :
    (m.erase k).lookup k' = m.lookup k' := by
  have hk : ¬ k = k' := fun hh => h hh.symm
  induction m with
  | nil => simp [erase, lookup]
  | cons hd tl ih =>
    obtain ⟨k0, v0⟩ := hd
    by_cases h0 : k0 = k
    · subst h0
      simp [erase, lookup, hk, ih]
    · by_cases h1 : k0 = k'
      · simp [erase, lookup, h0, h1, h]
      · simp [erase, lookup, h0, h1, ih]

theorem lookup_setOpt_self {α : Type} (m : JsMap α) (k : String) (v? : Option α) :
    (m.setOpt k v?).lookup k = v? := by
  cases v? with
  | none => simp [setOpt, lookup_erase_self]
  | some v => simp [setOpt, lookup_set_self]

theorem lookup_setOpt_ne {α : Type} (m : JsMap α) {k k' : String} (v? : Option α)
    (h : k' ≠ k) : (m.setOpt k v?).lookup k' = m.lookup k' := by
  cases v? with
  | none => simp [setOpt, lookup_erase_ne m h]
  | some v => simp [setOpt, lookup_set_ne m v h]

theorem set_self_of_lookup {α : Type} {m : JsMap α} {k : String} {v : α}
    (h : m.lookup k = some v) : m.set k v = m := by
  induction m with
  | nil => simp [lookup] at h
  | cons hd tl ih =>
    obtain ⟨k0, v0⟩ := hd
    by_cases h0 : k0 = k
    · simp [lookup, h0] at h
      simp [set, h0, h]
    · simp [lookup, h0] at h
      simp [set, h0, ih h]

theorem erase_self_of_lookup {α : Type} {m : JsMap α} {k : String}
    (h : m.lookup k = none) : m.erase k = m := by
  induction m with
  | nil => simp [erase]
  | cons hd tl ih =>
    obtain ⟨k0, v0⟩ := hd
    by_cases h0 : k0 = k
    · simp [lookup, h0] at h
    · simp [lookup, h0] at h
      simp [erase, h0, ih h]

theorem setOpt_some {α : Type} (m : JsMap α) (k : String) (v : α) :
    m.setOpt k (some v) = m.set k v := rfl

theorem setOpt_none {α : Type} (m : JsMap α) (k : String) :
    m.setOpt k none = m.erase k := rfl

theorem set_idem {α : Type} (m : JsMap α) (k : String) (v : α) :
    (m.set k v).set k v = m.set k v := by
  induction m with
  | nil => simp [set]
  | cons hd tl ih =>
    obtain ⟨k0, w⟩ := hd
    by_cases h0 : k0 = k
    · simp [set, h0]
    · simp [set, h0, ih]

theorem setOpt_idem {α : Type} (m : JsMap α) (k : String) (v? : Option α) :
    (m.setOpt k v?).setOpt k v? = m.setOpt k v? := by
  cases v? with
  | some v => exact set_idem m k v
  | none => exact erase_self_of_lookup (lookup_erase_self m k)

theorem setOpt_self {α : Type} (m : JsMap α) (k : String) :
    m.setOpt k (m.lookup k) = m := by
  cases h : m.lookup k with
  | none => simp [setOpt, erase_self_of_lookup h]
  | some v => simp [setOpt, set_self_of_lookup h]

theorem lookup_isSome_of_mem {α : Type} {m : JsMap α} {pr : String × α}
    (h : pr ∈ m) : (m.lookup pr.1).isSome := by
  induction m with
  | nil => simp at h
  | cons hd tl ih =>
    rcases List.mem_cons.mp h with h0 | h0
    · subst h0
      obtain ⟨k0, v0⟩ := pr
      simp [lookup]
    · obtain ⟨k0, v0⟩ := hd
      by_cases h1 : k0 = pr.1
      · simp [lookup, h1]
      · simp [lookup, h1, ih h0]

end JsMap

theorem MapEq.refl {α : Type} (m : JsMap α) : MapEq m m := fun _ => rfl

theorem MapEq.symm {α : Type} {m m' : JsMap α} (h : MapEq m m') : MapEq m' m :=
  fun k => (h k).symm

theorem MapEq.trans {α : Type} {m₁ m₂ m₃ : JsMap α} (h : MapEq m₁ m₂)
    (h' : MapEq m₂ m₃) : MapEq m₁ m₃ :=
  fun k => (h k).trans (h' k)

/-- Swapping a key and swapping it back restores every property read. -/
theorem mapEq_setOpt_restore {α : Type} (m : JsMap α) (k : String) (v? : Option α) :
    MapEq ((m.setOpt k v?).setOpt k (m.lookup k)) m := by
  intro k'
  by_cases h : k' = k
  · subst h
    simp [JsMap.lookup_setOpt_self]
  · simp [JsMap.lookup_setOpt_ne _ _ h]

/-- Writing back the saved value on top of a map that agrees with the swapped
original everywhere restores every property read. -/
theorem mapEq_restore_of {α : Type} {m m₂ : JsMap α} {k : String} {v? : Option α}
    (h : MapEq m₂ (m.setOpt k v?)) : MapEq (m₂.setOpt k (m.lookup k)) m := by
  intro k'
  by_cases hk : k' = k
  · subst hk
    simp [JsMap.lookup_setOpt_self]
  · calc (m₂.setOpt k (m.lookup k)).lookup k' = m₂.lookup k' :=
          JsMap.lookup_setOpt_ne _ _ hk
      _ = (m.setOpt k v?).lookup k' := h k'
      _ = m.lookup k' := JsMap.lookup_setOpt_ne _ _ hk

/-! ## The matching algorithm against its specification -/

theorem matchingListenersOp_eq_flatten (s : EState) (t : EvVal) :
    matchingListenersOp s t = flattenOpt (getMatching s t) := by
  cases h : getMatching s t with
  | none => simp [matchingListenersOp, flattenOpt, h]
  | some b => cases b <;> simp [matchingListenersOp, flattenOpt, BVal.toList, h]

theorem getMatching_not_str (s : EState) (t : EvVal) (h : t.isStr = false) :
    getMatching s t = s.events.lookup t.key := by
  simp [getMatching, h]

/-- The generalized fold of `_getMatching` over the pattern index, against the
flat concatenation of matching buckets: provided every matching index entry
has a bucket, flattening the fold result appends the matched buckets, in
index order, to the flattened accumulator. -/
theorem getMatching_fold (pe : JsMap BVal) (n : String) :
    ∀ (rs : List (String × JsRegex)) (acc : Option BVal),
      (∀ pr ∈ rs, pr.2.test n = true → (pe.lookup pr.1).isSome) →
      flattenOpt (rs.foldl
        (fun acc pr =>
          if pr.2.test n then
            match acc with
            | none => pe.lookup pr.1
            | some m =>
              let listeners : List (Option LEntry) :=
                match pe.lookup pr.1 with
                | some (.arr xs) => xs
                | some (.one f) => [some f]
                | none => [none]
              some (.arr (m.toList ++ listeners))
          else acc) acc)
      = flattenOpt acc ++
        rs.flatMap (fun pr => if pr.2.test n then flattenOpt (pe.lookup pr.1) else []) := by
  intro rs
  induction rs with
  | nil => intro acc _; simp
  | cons pr rs ih =>
    intro acc hb
    have hbtail : ∀ q ∈ rs, q.2.test n = true → (pe.lookup q.1).isSome :=
      fun q hq => hb q (List.mem_cons_of_mem pr hq)
    by_cases ht : pr.2.test n = true
    · have hsome : (pe.lookup pr.1).isSome := hb pr (List.mem_cons_self pr rs) ht
      obtain ⟨b, hbkt⟩ := Option.isSome_iff_exists.mp hsome
      cases acc with
      | none =>
        simp only [List.foldl_cons, List.flatMap_cons, ht, if_pos, ih _ hbtail]
        simp [flattenOpt, hbkt]
      | some m =>
        simp only [List.foldl_cons, List.flatMap_cons, ht, if_pos, ih _ hbtail]
        cases b with
        | one f => simp [flattenOpt, hbkt, BVal.toList, List.append_assoc]
        | arr xs => simp [flattenOpt, hbkt, BVal.toList, List.append_assoc]
    · have ht' : pr.2.test n = false := by
        cases hx : pr.2.test n with
        | true => exact absurd hx ht
        | false => rfl
      simp only [List.foldl_cons, List.flatMap_cons, ht', if_neg, Bool.false_eq_true,
        not_false_eq_true, ih _ hbtail]
      simp

/-- `_getMatching` on a string name computes exactly the spec's matching
sequence, provided every matching pattern key has a bucket (part of the
registry invariant). -/
theorem getMatching_spec (s : EState) (n : String) (h : MatchedHaveBuckets s n) :
    flattenOpt (getMatching s (.str n)) = matchingSpec s n := by
  have := getMatching_fold s.patternEvents n s.regexes (s.events.lookup n) h
  simpa [getMatching, matchingSpec, EvVal.key, EvVal.isStr] using this

/-- The fold of `_getMatching` never produces an empty stored value when the
buckets it draws from are sound. -/
theorem getMatching_fold_nonempty (pe : JsMap BVal) (n : String) (hpe : BucketsOK pe) :
    ∀ (rs : List (String × JsRegex)) (acc : Option BVal),
      (∀ m, acc = some m → m.toList ≠ []) →
      ∀ m, (rs.foldl
        (fun acc pr =>
          if pr.2.test n then
            match acc with
            | none => pe.lookup pr.1
            | some m =>
              let listeners : List (Option LEntry) :=
                match pe.lookup pr.1 with
                | some (.arr xs) => xs
                | some (.one f) => [some f]
                | none => [none]
              some (.arr (m.toList ++ listeners))
          else acc) acc) = some m → m.toList ≠ [] := by
  intro rs
  induction rs with
  | nil => intro acc hacc m hm; exact hacc m hm
  | cons pr rs ih =>
    intro acc hacc
    apply ih
    intro m hm
    simp only at hm
    by_cases ht : pr.2.test n = true
    · rw [if_pos ht] at hm
      cases acc with
      | none => exact (hpe pr.1 m hm).1
      | some m0 =>
        simp only at hm
        have hm' := Option.some.inj hm
        subst hm'
        have h0 : m0.toList ≠ [] := hacc m0 rfl
        simp [BVal.toList]
        intro hcontra
        exact absurd hcontra h0
    · rw [if_neg ht] at hm
      exact hacc m hm

/-- Under sound buckets, a produced matching value flattens to a non-empty
sequence. -/
theorem getMatching_some_ne (s : EState) (n : String) (hev : BucketsOK s.events)
    (hpe : BucketsOK s.patternEvents) {m : BVal}
    (h : getMatching s (.str n) = some m) : m.toList ≠ [] := by
  have hstart : ∀ m0, s.events.lookup ((EvVal.str n).key) = some m0 → m0.toList ≠ [] :=
    fun m0 hm0 => (hev _ m0 hm0).1
  have := getMatching_fold_nonempty s.patternEvents n hpe s.regexes
    (s.events.lookup ((EvVal.str n).key)) hstart m
  apply this
  simpa [getMatching, EvVal.isStr, EvVal.key] using h

/-- The registry invariant gives bucket existence for every matching index
entry, at any name. -/
theorem matchedHaveBuckets_of_inv (s : EState) (hinv : RegistryInv s) (n : String) :
    MatchedHaveBuckets s n := by
  intro pr hpr _
  have h1 := JsMap.lookup_isSome_of_mem hpr
  exact (hinv.1 pr.1).mp h1

/-! ## `_apply` characterization

Every operation the library wraps in `_apply` updates the events map only at
the swapped key, as a function of the value found there; `bucketStep` captures
that shape, and the two lemmas below compute `_apply` on it once and for
all. -/

/-- A wrapped operation determined by a value transformer `G` on the bucket at
the swapped key. -/
def bucketStep {α : Type} (pattern : String)
    (G : Option BVal → Except JsErr (Option BVal × α)) (st : EState) :
    EState × Except JsErr α :=
  match G (st.events.lookup pattern) with
  | .ok va => ({ st with events := st.events.setOpt pattern va.1 }, .ok va.2)
  | .error e => (st, .error e)

theorem mapEq_double_setOpt_restore {α : Type} (m : JsMap α) (k : String)
    (a b : Option α) :
    MapEq (((m.setOpt k a).setOpt k b).setOpt k (m.lookup k)) m := by
  intro k'
  by_cases h : k' = k
  · subst h
    simp [JsMap.lookup_setOpt_self]
  · simp [JsMap.lookup_setOpt_ne _ _ h]

/-- Writing the saved value back over any map that differs from the original
only at the swapped key restores every property read. -/
theorem mapEq_setOpt_restore_of_agree {α : Type} {m m₂ : JsMap α} {k : String}
    (h : ∀ k', k' ≠ k → m₂.lookup k' = m.lookup k') :
    MapEq (m₂.setOpt k (m.lookup k)) m := by
  intro k'
  by_cases hk : k' = k
  · subst hk
    simp [JsMap.lookup_setOpt_self]
  · rw [JsMap.lookup_setOpt_ne _ _ hk]
    exact h k' hk

/-- `_apply` on a successful bucket-shaped operation: the operation's effect
lands on the pattern bucket, and the literal map reads as before. -/
theorem applyOp_bucketStep_ok {α : Type} {s : EState} {pattern : String}
    {G : Option BVal → Except JsErr (Option BVal × α)} {va : Option BVal × α}
    (hG : G (s.patternEvents.lookup pattern) = .ok va) :
    applyOp s pattern (bucketStep pattern G) =
      ({ s with
          events := ((s.events.setOpt pattern (s.patternEvents.lookup pattern)).setOpt
            pattern va.1).setOpt pattern (s.events.lookup pattern),
          patternEvents := s.patternEvents.setOpt pattern va.1 }, .ok va.2) := by
  simp only [applyOp, bucketStep, JsMap.lookup_setOpt_self, hG]

/-- `_apply` on a failing bucket-shaped operation: the error is re-thrown
after both maps are restored (the pattern map exactly, the literal map for
every read). -/
theorem applyOp_bucketStep_err {α : Type} {s : EState} {pattern : String}
    {G : Option BVal → Except JsErr (Option BVal × α)} {e : JsErr}
    (hG : G (s.patternEvents.lookup pattern) = .error e) :
    applyOp s pattern (bucketStep pattern G) =
      ({ s with
          events := (s.events.setOpt pattern (s.patternEvents.lookup pattern)).setOpt
            pattern (s.events.lookup pattern) }, .error e) := by
  simp only [applyOp, bucketStep, JsMap.lookup_setOpt_self, hG, JsMap.setOpt_self]

/-- The bucket produced by the collaborator's `addListener`. -/
def addBucket (v? : Option BVal) (f : LEntry) : BVal :=
  match v? with
  | none => .one f
  | some (.one g) => .arr [some g, some f]
  | some (.arr gs) => .arr (gs ++ [some f])

/-- The collaborator's `addListener` as a bucket transformer. -/
def addG (l : JsArg) : Option BVal → Except JsErr (Option BVal × Unit) :=
  fun v? =>
    match l with
    | .notFn => .error .typeError
    | .fn f => .ok (some (addBucket v? f), ())

/-- The collaborator's `removeListener` as a bucket transformer. -/
def removeBucket (target : Nat) (v? : Option BVal) : Except JsErr (Option BVal) :=
  match v? with
  | none => .ok none
  | some (.one f) => if entryMatches f target then .ok none else .ok (some (.one f))
  | some (.arr fs) =>
    match scanRemove target fs with
    | .error e => .error e
    | .ok none => .ok (some (.arr fs))
    | .ok (some []) => .ok none
    | .ok (some fs') => .ok (some (.arr fs'))

def removeG (l : JsArg) : Option BVal → Except JsErr (Option BVal × Unit) :=
  fun v? =>
    match l with
    | .notFn => .error .typeError
    | .fn target =>
      match removeBucket target.id v? with
      | .ok w => .ok (w, ())
      | .error e => .error e

/-- `removeAllListeners`' bucket transformer: delete. -/
def removeAllG : Option BVal → Except JsErr (Option BVal × Unit) :=
  fun _ => .ok (none, ())

/-- `listeners`' bucket transformer: read-only flatten. -/
def readListenersG : Option BVal → Except JsErr (Option BVal × List (Option LEntry)) :=
  fun v? => .ok (v?, flattenOpt v?)

/-- `listenerCount`'s bucket transformer: read-only count. -/
def readCountG : Option BVal → Except JsErr (Option BVal × Nat) :=
  fun v? => .ok (v?, match v? with | none => 0 | some (.one _) => 1 | some (.arr xs) => xs.length)

theorem addFn_eq_bucketStep (pattern : String) (l : JsArg) :
    (fun st => match eeAddListener st.events pattern l with
      | .ok ev => ({ st with events := ev }, Except.ok ())
      | .error e => (st, Except.error e))
    = bucketStep pattern (addG l) := by
  funext st
  cases l with
  | notFn => rfl
  | fn f =>
    cases h : st.events.lookup pattern with
    | none => simp [eeAddListener, bucketStep, addG, addBucket, h, JsMap.setOpt]
    | some b => cases b <;> simp [eeAddListener, bucketStep, addG, addBucket, h, JsMap.setOpt]

theorem removeFn_eq_bucketStep (pattern : String) (l : JsArg) :
    (fun st => match eeRemoveListener st.events pattern l with
      | .ok ev => ({ st with events := ev }, Except.ok ())
      | .error e => (st, Except.error e))
    = bucketStep pattern (removeG l) := by
  funext st
  cases l with
  | notFn => rfl
  | fn target =>
    cases h : st.events.lookup pattern with
    | none =>
      simp [eeRemoveListener, bucketStep, removeG, removeBucket, h, JsMap.setOpt,
        JsMap.erase_self_of_lookup h]
    | some b =>
      cases b with
      | one f =>
        by_cases hm : entryMatches f target.id = true
        · simp [eeRemoveListener, bucketStep, removeG, removeBucket, h, hm, JsMap.setOpt]
        · simp [eeRemoveListener, bucketStep, removeG, removeBucket, h, hm, JsMap.setOpt,
            JsMap.set_self_of_lookup h]
      | arr fs =>
        cases hs : scanRemove target.id fs with
        | error e =>
          simp [eeRemoveListener, bucketStep, removeG, removeBucket, h, hs]
        | ok w =>
          cases w with
          | none =>
            simp [eeRemoveListener, bucketStep, removeG, removeBucket, h, hs, JsMap.setOpt,
              JsMap.set_self_of_lookup h]
          | some fs' =>
            cases fs' with
            | nil => simp [eeRemoveListener, bucketStep, removeG, removeBucket, h, hs, JsMap.setOpt]
            | cons y ys =>
              simp [eeRemoveListener, bucketStep, removeG, removeBucket, h, hs, JsMap.setOpt]

theorem removeAllFn_eq_bucketStep (pattern : String) :
    (fun st => ({ st with events := eeRemoveAll st.events pattern }, Except.ok ()))
    = bucketStep pattern removeAllG := by
  funext st
  simp [eeRemoveAll, bucketStep, removeAllG, JsMap.setOpt]

theorem readListenersFn_eq_bucketStep (pattern : String) :
    (fun st => (st, Except.ok (eeListeners st.events pattern)))
    = bucketStep pattern readListenersG := by
  funext st
  cases h : st.events.lookup pattern with
  | none =>
    simp [eeListeners, bucketStep, readListenersG, flattenOpt, h, JsMap.setOpt,
      JsMap.erase_self_of_lookup h]
  | some b =>
    simp [eeListeners, bucketStep, readListenersG, flattenOpt, h, JsMap.setOpt,
      JsMap.set_self_of_lookup h]

theorem readCountFn_eq_bucketStep (pattern : String) :
    (fun st => (st, Except.ok (eeListenerCount st.events pattern)))
    = bucketStep pattern readCountG := by
  funext st
  cases h : st.events.lookup pattern with
  | none =>
    simp [eeListenerCount, bucketStep, readCountG, h, JsMap.setOpt,
      JsMap.erase_self_of_lookup h]
  | some b =>
    cases b <;>
      simp [eeListenerCount, bucketStep, readCountG, h, JsMap.setOpt,
        JsMap.set_self_of_lookup h]

theorem erase_set {α : Type} (m : JsMap α) (k : String) (v : α) :
    (m.set k v).erase k = m.erase k := by
  induction m with
  | nil => simp [JsMap.set, JsMap.erase]
  | cons hd tl ih =>
    obtain ⟨k0, w⟩ := hd
    by_cases h0 : k0 = k
    · simp [JsMap.set, JsMap.erase, h0]
    · simp [JsMap.set, JsMap.erase, h0, ih]

theorem erase_setOpt {α : Type} (m : JsMap α) (k : String) (v? : Option α) :
    (m.setOpt k v?).erase k = m.erase k := by
  cases v? with
  | none =>
    exact JsMap.erase_self_of_lookup (JsMap.lookup_erase_self m k)
  | some v => exact erase_set m k v

/-- The pattern bucket left by `removeListener`'s cleanup: the removal result,
with a bucket of falsy `.length` deleted. -/
def cleanupBucket (w : Option BVal) : Option BVal :=
  match w with
  | none => none
  | some b => if b.jsLength = 0 then none else some b

/-! ## Characterizations of the registry operations -/

theorem addListenerA_regex_fn (s : EState) (r : JsRegex) (f : LEntry) :
    (addListenerA s (.regex r) (.fn f)).2 = none ∧
    MapEq (addListenerA s (.regex r) (.fn f)).1.events s.events ∧
    (addListenerA s (.regex r) (.fn f)).1.patternEvents
      = s.patternEvents.set r.src (addBucket (s.patternEvents.lookup r.src) f) ∧
    (addListenerA s (.regex r) (.fn f)).1.regexes
      = (if (s.regexes.lookup r.src).isSome then s.regexes else s.regexes.set r.src r) ∧
    (addListenerA s (.regex r) (.fn f)).1.regexesCount = s.regexesCount + 1 ∧
    (addListenerA s (.regex r) (.fn f)).1.event = .str "newListener" ∧
    (addListenerA s (.regex r) (.fn f)).1.invoked = s.invoked := by
  have hG : addG (.fn f) (s.patternEvents.lookup r.src)
      = .ok (some (addBucket (s.patternEvents.lookup r.src) f), ()) := rfl
  simp only [addListenerA, addFn_eq_bucketStep]
  rw [applyOp_bucketStep_ok
    (s := { s with event := .str "newListener", regexesCount := s.regexesCount + 1 }) hG]
  simp only []
  by_cases hreg : (s.regexes.lookup r.src).isSome = true
  · rw [if_pos hreg]
    refine ⟨rfl, mapEq_double_setOpt_restore _ _ _ _, rfl, ?_, rfl, rfl, rfl⟩
    simp [hreg]
  · rw [if_neg hreg]
    refine ⟨rfl, mapEq_double_setOpt_restore _ _ _ _, rfl, ?_, rfl, rfl, rfl⟩
    simp [hreg]

theorem addListenerA_regex_notFn (s : EState) (r : JsRegex) :
    (addListenerA s (.regex r) .notFn).2 = some .typeError ∧
    MapEq (addListenerA s (.regex r) .notFn).1.events s.events ∧
    (addListenerA s (.regex r) .notFn).1.patternEvents = s.patternEvents ∧
    (addListenerA s (.regex r) .notFn).1.regexes = s.regexes ∧
    (addListenerA s (.regex r) .notFn).1.regexesCount = s.regexesCount + 1 ∧
    (addListenerA s (.regex r) .notFn).1.event = .str "newListener" ∧
    (addListenerA s (.regex r) .notFn).1.invoked = s.invoked := by
  have hG : addG .notFn (s.patternEvents.lookup r.src) = .error .typeError := rfl
  simp only [addListenerA, addFn_eq_bucketStep]
  rw [applyOp_bucketStep_err
    (s := { s with event := .str "newListener", regexesCount := s.regexesCount + 1 }) hG]
  exact ⟨rfl, mapEq_setOpt_restore _ _ _, rfl, rfl, rfl, rfl, rfl⟩

theorem removeListenerA_regex_fn (s : EState) (r : JsRegex) (tgt : LEntry)
    {w : Option BVal}
    (hw : removeBucket tgt.id (s.patternEvents.lookup r.src) = .ok w) :
    (removeListenerA s (.regex r) (.fn tgt)).2 = none ∧
    MapEq (removeListenerA s (.regex r) (.fn tgt)).1.events s.events ∧
    (removeListenerA s (.regex r) (.fn tgt)).1.patternEvents
      = (match cleanupBucket w with
         | none => s.patternEvents.erase r.src
         | some b => s.patternEvents.set r.src b) ∧
    (removeListenerA s (.regex r) (.fn tgt)).1.regexes
      = (if cleanupBucket w = none ∧ (s.regexes.lookup r.src).isSome then
           s.regexes.erase r.src
         else s.regexes) ∧
    (removeListenerA s (.regex r) (.fn tgt)).1.regexesCount = s.regexesCount - 1 ∧
    (removeListenerA s (.regex r) (.fn tgt)).1.event = .str "removeListener" ∧
    (removeListenerA s (.regex r) (.fn tgt)).1.invoked = s.invoked := by
  have hG : removeG (.fn tgt) (s.patternEvents.lookup r.src) = .ok (w, ()) := by
    simp [removeG, hw]
  simp only [removeListenerA, removeFn_eq_bucketStep]
  rw [applyOp_bucketStep_ok
    (s := { s with event := .str "removeListener", regexesCount := s.regexesCount - 1 }) hG]
  simp only [JsMap.lookup_setOpt_self]
  cases w with
  | none =>
    simp only [JsMap.setOpt_none, JsMap.lookup_erase_self, Option.isNone_none]
    by_cases hreg : (s.regexes.lookup r.src).isSome = true
    · have hcond : True ∧ (s.regexes.lookup r.src).isSome = true := ⟨trivial, hreg⟩
      rw [if_pos hcond]
      refine ⟨by trivial, ?_, by simp [cleanupBucket], by simp [cleanupBucket, hreg],
        by trivial, by trivial, by trivial⟩
      apply mapEq_setOpt_restore_of_agree
      intro k' hk
      simp [JsMap.lookup_setOpt_ne _ _ hk, JsMap.lookup_erase_ne _ hk,
        JsMap.lookup_set_ne _ _ hk]
    · have hcond : ¬(True ∧ (s.regexes.lookup r.src).isSome = true) := fun hc => hreg hc.2
      rw [if_neg hcond]
      refine ⟨by trivial, ?_, by simp [cleanupBucket], by simp [cleanupBucket, hreg],
        by trivial, by trivial, by trivial⟩
      apply mapEq_setOpt_restore_of_agree
      intro k' hk
      simp [JsMap.lookup_setOpt_ne _ _ hk, JsMap.lookup_erase_ne _ hk,
        JsMap.lookup_set_ne _ _ hk]
  | some b =>
    simp only [JsMap.setOpt_some]
    by_cases hlen : b.jsLength = 0
    · rw [if_pos hlen]
      simp only [erase_set, JsMap.lookup_erase_self, Option.isNone_none]
      by_cases hreg : (s.regexes.lookup r.src).isSome = true
      · have hcond : True ∧ (s.regexes.lookup r.src).isSome = true := ⟨trivial, hreg⟩
        rw [if_pos hcond]
        refine ⟨by trivial, ?_, by simp [cleanupBucket, hlen],
          by simp [cleanupBucket, hlen, hreg], by trivial, by trivial, by trivial⟩
        apply mapEq_setOpt_restore_of_agree
        intro k' hk
        simp [JsMap.lookup_setOpt_ne _ _ hk, JsMap.lookup_erase_ne _ hk,
          JsMap.lookup_set_ne _ _ hk]
      · have hcond : ¬(True ∧ (s.regexes.lookup r.src).isSome = true) := fun hc => hreg hc.2
        rw [if_neg hcond]
        refine ⟨by trivial, ?_, by simp [cleanupBucket, hlen],
          by simp [cleanupBucket, hlen, hreg], by trivial, by trivial, by trivial⟩
        apply mapEq_setOpt_restore_of_agree
        intro k' hk
        simp [JsMap.lookup_setOpt_ne _ _ hk, JsMap.lookup_erase_ne _ hk,
          JsMap.lookup_set_ne _ _ hk]
    · rw [if_neg hlen]
      simp only [JsMap.lookup_set_self, Option.isNone_some]
      have hcond : ¬(false = true ∧ (s.regexes.lookup r.src).isSome = true) :=
        fun hc => Bool.false_ne_true hc.1
      rw [if_neg hcond]
      refine ⟨by trivial, ?_, by simp [cleanupBucket, hlen],
        by simp [cleanupBucket, hlen], by trivial, by trivial, by trivial⟩
      apply mapEq_setOpt_restore_of_agree
      intro k' hk
      simp [JsMap.lookup_setOpt_ne _ _ hk, JsMap.lookup_erase_ne _ hk,
        JsMap.lookup_set_ne _ _ hk]

theorem removeListenerA_regex_notFn (s : EState) (r : JsRegex) :
    (removeListenerA s (.regex r) .notFn).2 = some .typeError ∧
    MapEq (removeListenerA s (.regex r) .notFn).1.events s.events ∧
    (removeListenerA s (.regex r) .notFn).1.patternEvents = s.patternEvents ∧
    (removeListenerA s (.regex r) .notFn).1.regexes = s.regexes ∧
    (removeListenerA s (.regex r) .notFn).1.regexesCount = s.regexesCount - 1 ∧
    (removeListenerA s (.regex r) .notFn).1.event = .str "removeListener" ∧
    (removeListenerA s (.regex r) .notFn).1.invoked = s.invoked := by
  have hG : removeG .notFn (s.patternEvents.lookup r.src) = .error .typeError := rfl
  simp only [removeListenerA, removeFn_eq_bucketStep]
  rw [applyOp_bucketStep_err
    (s := { s with event := .str "removeListener", regexesCount := s.regexesCount - 1 }) hG]
  exact ⟨rfl, mapEq_setOpt_restore _ _ _, rfl, rfl, rfl, rfl, rfl⟩

theorem removeAllListenersA_regex (s : EState) (r : JsRegex) :
    (removeAllListenersA s (.regex r)).2 = none ∧
    MapEq (removeAllListenersA s (.regex r)).1.events s.events ∧
    (removeAllListenersA s (.regex r)).1.patternEvents = s.patternEvents.erase r.src ∧
    (removeAllListenersA s (.regex r)).1.regexes
      = (if (s.regexes.lookup r.src).isSome then s.regexes.erase r.src else s.regexes) ∧
    (removeAllListenersA s (.regex r)).1.regexesCount = s.regexesCount ∧
    (removeAllListenersA s (.regex r)).1.event = .str "removeListener" ∧
    (removeAllListenersA s (.regex r)).1.invoked = s.invoked := by
  have hG : removeAllG (s.patternEvents.lookup r.src) = .ok (none, ()) := rfl
  simp only [removeAllListenersA, removeAllFn_eq_bucketStep]
  rw [applyOp_bucketStep_ok (s := { s with event := .str "removeListener" }) hG]
  have he : (s.patternEvents.erase r.src).erase r.src = s.patternEvents.erase r.src :=
    JsMap.erase_self_of_lookup (JsMap.lookup_erase_self _ _)
  simp only [JsMap.setOpt_none, he]
  by_cases hreg : (s.regexes.lookup r.src).isSome = true
  · rw [if_pos hreg]
    refine ⟨by trivial, ?_, by trivial, by simp [hreg], by trivial, by trivial, by trivial⟩
    apply mapEq_setOpt_restore_of_agree
    intro k' hk
    simp [JsMap.lookup_setOpt_ne _ _ hk, JsMap.lookup_erase_ne _ hk,
      JsMap.lookup_set_ne _ _ hk]
  · rw [if_neg hreg]
    refine ⟨by trivial, ?_, by trivial, by simp [hreg], by trivial, by trivial, by trivial⟩
    apply mapEq_setOpt_restore_of_agree
    intro k' hk
    simp [JsMap.lookup_setOpt_ne _ _ hk, JsMap.lookup_erase_ne _ hk,
      JsMap.lookup_set_ne _ _ hk]

theorem addPatternListener_str_fn (compile : String → String → Bool) (s : EState)
    (p : String) (f : LEntry) :
    (addPatternListener compile s (.str p) (.fn f)).2 = none ∧
    MapEq (addPatternListener compile s (.str p) (.fn f)).1.events s.events ∧
    (addPatternListener compile s (.str p) (.fn f)).1.patternEvents
      = s.patternEvents.set p (addBucket (s.patternEvents.lookup p) f) ∧
    (addPatternListener compile s (.str p) (.fn f)).1.regexes
      = (if (s.regexes.lookup p).isSome then s.regexes
         else s.regexes.set p ⟨p, compile p⟩) ∧
    (addPatternListener compile s (.str p) (.fn f)).1.regexesCount = s.regexesCount ∧
    (addPatternListener compile s (.str p) (.fn f)).1.event = .str "newListener" ∧
    (addPatternListener compile s (.str p) (.fn f)).1.invoked = s.invoked := by
  have hG : addG (.fn f) (s.patternEvents.lookup p)
      = .ok (some (addBucket (s.patternEvents.lookup p) f), ()) := rfl
  simp only [addPatternListener, EvVal.isStr, EvVal.key, Bool.not_true, Bool.false_eq_true,
    if_false, addFn_eq_bucketStep]
  rw [applyOp_bucketStep_ok (s := { s with event := .str "newListener" }) hG]
  simp only []
  by_cases hreg : (s.regexes.lookup p).isSome = true
  · rw [if_pos hreg]
    refine ⟨rfl, mapEq_double_setOpt_restore _ _ _ _, rfl, ?_, rfl, rfl, rfl⟩
    simp [hreg]
  · rw [if_neg hreg]
    refine ⟨rfl, mapEq_double_setOpt_restore _ _ _ _, rfl, ?_, rfl, rfl, rfl⟩
    simp [hreg]

theorem addPatternListener_str_notFn (compile : String → String → Bool) (s : EState)
    (p : String) :
    (addPatternListener compile s (.str p) .notFn).2 = some .typeError ∧
    MapEq (addPatternListener compile s (.str p) .notFn).1.events s.events ∧
    (addPatternListener compile s (.str p) .notFn).1.patternEvents = s.patternEvents ∧
    (addPatternListener compile s (.str p) .notFn).1.regexes = s.regexes ∧
    (addPatternListener compile s (.str p) .notFn).1.regexesCount = s.regexesCount ∧
    (addPatternListener compile s (.str p) .notFn).1.event = .str "newListener" ∧
    (addPatternListener compile s (.str p) .notFn).1.invoked = s.invoked := by
  have hG : addG .notFn (s.patternEvents.lookup p) = .error .typeError := rfl
  simp only [addPatternListener, EvVal.isStr, EvVal.key, Bool.not_true, Bool.false_eq_true,
    if_false, addFn_eq_bucketStep]
  rw [applyOp_bucketStep_err (s := { s with event := .str "newListener" }) hG]
  exact ⟨rfl, mapEq_setOpt_restore _ _ _, rfl, rfl, rfl, rfl, rfl⟩

theorem addPatternListener_notStr (compile : String → String → Bool) (s : EState)
    {p : EvVal} (hp : p.isStr = false) (l : JsArg) :
    addPatternListener compile s p l = (s, some .typeError) := by
  simp [addPatternListener, hp]

theorem removePatternListenerOp_str_fn (s : EState) (p : String) (tgt : LEntry)
    {w : Option BVal}
    (hw : removeBucket tgt.id (s.patternEvents.lookup p) = .ok w) :
    (removePatternListenerOp s (.str p) (.fn tgt)).2 = none ∧
    MapEq (removePatternListenerOp s (.str p) (.fn tgt)).1.events s.events ∧
    (removePatternListenerOp s (.str p) (.fn tgt)).1.patternEvents
      = (match cleanupBucket w with
         | none => s.patternEvents.erase p
         | some b => s.patternEvents.set p b) ∧
    (removePatternListenerOp s (.str p) (.fn tgt)).1.regexes
      = (if cleanupBucket w = none ∧ (s.regexes.lookup p).isSome then
           s.regexes.erase p
         else s.regexes) ∧
    (removePatternListenerOp s (.str p) (.fn tgt)).1.regexesCount = s.regexesCount ∧
    (removePatternListenerOp s (.str p) (.fn tgt)).1.event = .str "removeListener" ∧
    (removePatternListenerOp s (.str p) (.fn tgt)).1.invoked = s.invoked := by
  have hG : removeG (.fn tgt) (s.patternEvents.lookup p) = .ok (w, ()) := by
    simp [removeG, hw]
  simp only [removePatternListenerOp, EvVal.isStr, EvVal.key, Bool.not_true,
    Bool.false_eq_true, if_false, removeFn_eq_bucketStep]
  rw [applyOp_bucketStep_ok (s := { s with event := .str "removeListener" }) hG]
  simp only [JsMap.lookup_setOpt_self]
  cases w with
  | none =>
    simp only [JsMap.setOpt_none, JsMap.lookup_erase_self, Option.isNone_none]
    by_cases hreg : (s.regexes.lookup p).isSome = true
    · have hcond : True ∧ (s.regexes.lookup p).isSome = true := ⟨trivial, hreg⟩
      rw [if_pos hcond]
      refine ⟨by trivial, ?_, by simp [cleanupBucket], by simp [cleanupBucket, hreg],
        by trivial, by trivial, by trivial⟩
      apply mapEq_setOpt_restore_of_agree
      intro k' hk
      simp [JsMap.lookup_setOpt_ne _ _ hk, JsMap.lookup_erase_ne _ hk,
        JsMap.lookup_set_ne _ _ hk]
    · have hcond : ¬(True ∧ (s.regexes.lookup p).isSome = true) := fun hc => hreg hc.2
      rw [if_neg hcond]
      refine ⟨by trivial, ?_, by simp [cleanupBucket], by simp [cleanupBucket, hreg],
        by trivial, by trivial, by trivial⟩
      apply mapEq_setOpt_restore_of_agree
      intro k' hk
      simp [JsMap.lookup_setOpt_ne _ _ hk, JsMap.lookup_erase_ne _ hk,
        JsMap.lookup_set_ne _ _ hk]
  | some b =>
    simp only [JsMap.setOpt_some]
    by_cases hlen : b.jsLength = 0
    · rw [if_pos hlen]
      simp only [erase_set, JsMap.lookup_erase_self, Option.isNone_none]
      by_cases hreg : (s.regexes.lookup p).isSome = true
      · have hcond : True ∧ (s.regexes.lookup p).isSome = true := ⟨trivial, hreg⟩
        rw [if_pos hcond]
        refine ⟨by trivial, ?_, by simp [cleanupBucket, hlen],
          by simp [cleanupBucket, hlen, hreg], by trivial, by trivial, by trivial⟩
        apply mapEq_setOpt_restore_of_agree
        intro k' hk
        simp [JsMap.lookup_setOpt_ne _ _ hk, JsMap.lookup_erase_ne _ hk,
          JsMap.lookup_set_ne _ _ hk]
      · have hcond : ¬(True ∧ (s.regexes.lookup p).isSome = true) := fun hc => hreg hc.2
        rw [if_neg hcond]
        refine ⟨by trivial, ?_, by simp [cleanupBucket, hlen],
          by simp [cleanupBucket, hlen, hreg], by trivial, by trivial, by trivial⟩
        apply mapEq_setOpt_restore_of_agree
        intro k' hk
        simp [JsMap.lookup_setOpt_ne _ _ hk, JsMap.lookup_erase_ne _ hk,
          JsMap.lookup_set_ne _ _ hk]
    · rw [if_neg hlen]
      simp only [JsMap.lookup_set_self, Option.isNone_some]
      have hcond : ¬(false = true ∧ (s.regexes.lookup p).isSome = true) :=
        fun hc => Bool.false_ne_true hc.1
      rw [if_neg hcond]
      refine ⟨by trivial, ?_, by simp [cleanupBucket, hlen],
        by simp [cleanupBucket, hlen], by trivial, by trivial, by trivial⟩
      apply mapEq_setOpt_restore_of_agree
      intro k' hk
      simp [JsMap.lookup_setOpt_ne _ _ hk, JsMap.lookup_erase_ne _ hk,
        JsMap.lookup_set_ne _ _ hk]

theorem removePatternListenerOp_str_fn_err (s : EState) (p : String) (tgt : LEntry)
    {e : JsErr}
    (hw : removeBucket tgt.id (s.patternEvents.lookup p) = .error e) :
    (removePatternListenerOp s (.str p) (.fn tgt)).2 = some e ∧
    MapEq (removePatternListenerOp s (.str p) (.fn tgt)).1.events s.events ∧
    (removePatternListenerOp s (.str p) (.fn tgt)).1.patternEvents = s.patternEvents ∧
    (removePatternListenerOp s (.str p) (.fn tgt)).1.regexes = s.regexes ∧
    (removePatternListenerOp s (.str p) (.fn tgt)).1.regexesCount = s.regexesCount ∧
    (removePatternListenerOp s (.str p) (.fn tgt)).1.event = .str "removeListener" ∧
    (removePatternListenerOp s (.str p) (.fn tgt)).1.invoked = s.invoked := by
  have hG : removeG (.fn tgt) (s.patternEvents.lookup p) = .error e := by
    simp [removeG, hw]
  simp only [removePatternListenerOp, EvVal.isStr, EvVal.key, Bool.not_true,
    Bool.false_eq_true, if_false, removeFn_eq_bucketStep]
  rw [applyOp_bucketStep_err (s := { s with event := .str "removeListener" }) hG]
  exact ⟨rfl, mapEq_setOpt_restore _ _ _, rfl, rfl, rfl, rfl, rfl⟩

theorem removePatternListenerOp_notStr (s : EState) {p : EvVal}
    (hp : p.isStr = false) (l : JsArg) :
    removePatternListenerOp s p l = (s, some .typeError) := by
  simp [removePatternListenerOp, hp]

theorem removeAllPatternListeners_str (s : EState) (p : String) :
    (removeAllPatternListeners s (.str p)).2 = none ∧
    MapEq (removeAllPatternListeners s (.str p)).1.events s.events ∧
    (removeAllPatternListeners s (.str p)).1.patternEvents = s.patternEvents.erase p ∧
    (removeAllPatternListeners s (.str p)).1.regexes
      = (if (s.regexes.lookup p).isSome then s.regexes.erase p else s.regexes) ∧
    (removeAllPatternListeners s (.str p)).1.regexesCount = s.regexesCount ∧
    (removeAllPatternListeners s (.str p)).1.event = .str "removeListener" ∧
    (removeAllPatternListeners s (.str p)).1.invoked = s.invoked := by
  have hG : removeAllG (s.patternEvents.lookup p) = .ok (none, ()) := rfl
  simp only [removeAllPatternListeners, EvVal.isStr, EvVal.key, Bool.not_true,
    Bool.false_eq_true, if_false, removeAllFn_eq_bucketStep]
  rw [applyOp_bucketStep_ok (s := { s with event := .str "removeListener" }) hG]
  have he : (s.patternEvents.erase p).erase p = s.patternEvents.erase p :=
    JsMap.erase_self_of_lookup (JsMap.lookup_erase_self _ _)
  simp only [JsMap.setOpt_none, he]
  by_cases hreg : (s.regexes.lookup p).isSome = true
  · rw [if_pos hreg]
    refine ⟨by trivial, ?_, by trivial, by simp [hreg], by trivial, by trivial, by trivial⟩
    apply mapEq_setOpt_restore_of_agree
    intro k' hk
    simp [JsMap.lookup_setOpt_ne _ _ hk, JsMap.lookup_erase_ne _ hk,
      JsMap.lookup_set_ne _ _ hk]
  · rw [if_neg hreg]
    refine ⟨by trivial, ?_, by trivial, by simp [hreg], by trivial, by trivial, by trivial⟩
    apply mapEq_setOpt_restore_of_agree
    intro k' hk
    simp [JsMap.lookup_setOpt_ne _ _ hk, JsMap.lookup_erase_ne _ hk,
      JsMap.lookup_set_ne _ _ hk]

theorem patternListenersA_regex (s : EState) (r : JsRegex) :
    patternListenersA s (.regex r)
      = ({ s with
            events := (s.events.setOpt r.src (s.patternEvents.lookup r.src)).setOpt
              r.src (s.events.lookup r.src) },
         .ok (flattenOpt (s.patternEvents.lookup r.src))) := by
  have hG : readListenersG (s.patternEvents.lookup r.src)
      = .ok (s.patternEvents.lookup r.src, flattenOpt (s.patternEvents.lookup r.src)) := rfl
  simp only [patternListenersA, readListenersFn_eq_bucketStep]
  rw [applyOp_bucketStep_ok hG]
  rw [JsMap.setOpt_idem]
  simp [JsMap.setOpt_self]

theorem patternListenerCountA_regex (s : EState) (r : JsRegex) :
    patternListenerCountA s (.regex r)
      = ({ s with
            events := (s.events.setOpt r.src (s.patternEvents.lookup r.src)).setOpt
              r.src (s.events.lookup r.src) },
         .ok (eeListenerCount s.patternEvents r.src)) := by
  have hG : readCountG (s.patternEvents.lookup r.src)
      = .ok (s.patternEvents.lookup r.src,
          match s.patternEvents.lookup r.src with
          | none => 0 | some (.one _) => 1 | some (.arr xs) => xs.length) := rfl
  simp only [patternListenerCountA, readCountFn_eq_bucketStep]
  rw [applyOp_bucketStep_ok hG]
  rw [JsMap.setOpt_idem]
  simp [JsMap.setOpt_self, eeListenerCount]

theorem patternListenersB_str (s : EState) (p : String) :
    patternListenersB s (.str p)
      = ({ s with
            events := (s.events.setOpt p (s.patternEvents.lookup p)).setOpt
              p (s.events.lookup p) },
         .ok (flattenOpt (s.patternEvents.lookup p))) := by
  have hG : readListenersG (s.patternEvents.lookup p)
      = .ok (s.patternEvents.lookup p, flattenOpt (s.patternEvents.lookup p)) := rfl
  simp only [patternListenersB, EvVal.isStr, EvVal.key, Bool.not_true,
    Bool.false_eq_true, if_false, readListenersFn_eq_bucketStep]
  rw [applyOp_bucketStep_ok hG]
  rw [JsMap.setOpt_idem]
  simp [JsMap.setOpt_self]

theorem patternListenerCountB_str (s : EState) (p : String) :
    patternListenerCountB s (.str p)
      = ({ s with
            events := (s.events.setOpt p (s.patternEvents.lookup p)).setOpt
              p (s.events.lookup p) },
         .ok (eeListenerCount s.patternEvents p)) := by
  have hG : readCountG (s.patternEvents.lookup p)
      = .ok (s.patternEvents.lookup p,
          match s.patternEvents.lookup p with
          | none => 0 | some (.one _) => 1 | some (.arr xs) => xs.length) := rfl
  simp only [patternListenerCountB, EvVal.isStr, EvVal.key, Bool.not_true,
    Bool.false_eq_true, if_false, readCountFn_eq_bucketStep]
  rw [applyOp_bucketStep_ok hG]
  rw [JsMap.setOpt_idem]
  simp [JsMap.setOpt_self, eeListenerCount]

theorem removePatternListenerOp_str_notFn (s : EState) (p : String) :
    (removePatternListenerOp s (.str p) .notFn).2 = some .typeError ∧
    MapEq (removePatternListenerOp s (.str p) .notFn).1.events s.events ∧
    (removePatternListenerOp s (.str p) .notFn).1.patternEvents = s.patternEvents ∧
    (removePatternListenerOp s (.str p) .notFn).1.regexes = s.regexes ∧
    (removePatternListenerOp s (.str p) .notFn).1.regexesCount = s.regexesCount ∧
    (removePatternListenerOp s (.str p) .notFn).1.event = .str "removeListener" ∧
    (removePatternListenerOp s (.str p) .notFn).1.invoked = s.invoked := by
  have hG : removeG .notFn (s.patternEvents.lookup p) = .error .typeError := rfl
  simp only [removePatternListenerOp, EvVal.isStr, EvVal.key, Bool.not_true,
    Bool.false_eq_true, if_false, removeFn_eq_bucketStep]
  rw [applyOp_bucketStep_err (s := { s with event := .str "removeListener" }) hG]
  exact ⟨rfl, mapEq_setOpt_restore _ _ _, rfl, rfl, rfl, rfl, rfl⟩

/-- The collaborator's `emit` reports exactly whether the dispatched bucket
exists: whenever it returns (rather than throwing), the boolean is the
definedness of the handler it was invoked on. -/
theorem eeEmit_ok_result (B : Nat → Behavior) (rev : Rev) (fuel : Nat) (s : EState)
    (t : EvVal) (args : List Nat) {b : Bool}
    (h : (eeEmit B rev fuel s t args).2.2 = .ok b) :
    b = (s.events.lookup t.key).isSome := by
  cases fuel with
  | zero => simp [eeEmit] at h
  | succ fuel =>
    rw [eeEmit] at h
    simp only [] at h
    split at h
    · simp at h
    · split at h
      · next hh =>
        simp only [] at h
        have hb : b = false := (Except.ok.inj h).symm
        subst hb
        simp [hh]
      · next f hh =>
        simp only [] at h
        split at h
        · next hr =>
          have hb : b = true := (Except.ok.inj h).symm
          subst hb
          simp [hh]
        · next e hr => simp at h
      · next xs hh =>
        simp only [] at h
        split at h
        · next hr =>
          have hb : b = true := (Except.ok.inj h).symm
          subst hb
          simp [hh]
        · next e hr => simp at h


/-! ## Claim theorems -/

/-- C10: the query operations (`patternListeners` and the static
`patternListenerCount`, in both API revisions) leave the emitter's registry
state unchanged — every map read, the counter, the `event` field and the
once-flags are as before — and, generically, `_apply` around any operation
that leaves the state untouched restores both the literal entry and the
pattern entry for the queried key even when the wrapped call throws.
(`matchingListeners`, `matchingListenerCount` and `listenerCount` are pure
reads in this embedding — they do not produce a state at all.) -/
theorem C10_queries_preserve_registry :
    (∀ (α : Type) (s : EState) (pattern : String) (res : Except JsErr α),
      (applyOp s pattern (fun st => (st, res))).2 = res ∧
      MapEq (applyOp s pattern (fun st => (st, res))).1.events s.events ∧
      (applyOp s pattern (fun st => (st, res))).1.patternEvents = s.patternEvents ∧
      (applyOp s pattern (fun st => (st, res))).1.regexes = s.regexes ∧
      (applyOp s pattern (fun st => (st, res))).1.regexesCount = s.regexesCount ∧
      (applyOp s pattern (fun st => (st, res))).1.event = s.event ∧
      (applyOp s pattern (fun st => (st, res))).1.invoked = s.invoked) ∧
    (∀ (s : EState) (t : EvVal),
      MapEq (patternListenersA s t).1.events s.events ∧
      (patternListenersA s t).1.patternEvents = s.patternEvents ∧
      (patternListenersA s t).1.regexes = s.regexes ∧
      (patternListenersA s t).1.regexesCount = s.regexesCount ∧
      (patternListenersA s t).1.event = s.event ∧
      (patternListenersA s t).1.invoked = s.invoked) ∧
    (∀ (s : EState) (t : EvVal),
      MapEq (patternListenerCountA s t).1.events s.events ∧
      (patternListenerCountA s t).1.patternEvents = s.patternEvents ∧
      (patternListenerCountA s t).1.regexes = s.regexes ∧
      (patternListenerCountA s t).1.regexesCount = s.regexesCount ∧
      (patternListenerCountA s t).1.event = s.event ∧
      (patternListenerCountA s t).1.invoked = s.invoked) ∧
    (∀ (s : EState) (t : EvVal),
      MapEq (patternListenersB s t).1.events s.events ∧
      (patternListenersB s t).1.patternEvents = s.patternEvents ∧
      (patternListenersB s t).1.regexes = s.regexes ∧
      (patternListenersB s t).1.regexesCount = s.regexesCount ∧
      (patternListenersB s t).1.event = s.event ∧
      (patternListenersB s t).1.invoked = s.invoked) ∧
    (∀ (s : EState) (t : EvVal),
      MapEq (patternListenerCountB s t).1.events s.events ∧
      (patternListenerCountB s t).1.patternEvents = s.patternEvents ∧
      (patternListenerCountB s t).1.regexes = s.regexes ∧
      (patternListenerCountB s t).1.regexesCount = s.regexesCount ∧
      (patternListenerCountB s t).1.event = s.event ∧
      (patternListenerCountB s t).1.invoked = s.invoked) := by
  have hgen : ∀ (α : Type) (s : EState) (pattern : String) (res : Except JsErr α),
      (applyOp s pattern (fun st => (st, res))).2 = res ∧
      MapEq (applyOp s pattern (fun st => (st, res))).1.events s.events ∧
      (applyOp s pattern (fun st => (st, res))).1.patternEvents = s.patternEvents ∧
      (applyOp s pattern (fun st => (st, res))).1.regexes = s.regexes ∧
      (applyOp s pattern (fun st => (st, res))).1.regexesCount = s.regexesCount ∧
      (applyOp s pattern (fun st => (st, res))).1.event = s.event ∧
      (applyOp s pattern (fun st => (st, res))).1.invoked = s.invoked := by
    intro α s pattern res
    simp only [applyOp, JsMap.lookup_setOpt_self, JsMap.setOpt_self]
    exact ⟨by trivial, mapEq_setOpt_restore _ _ _, by trivial, by trivial, by trivial,
      by trivial, by trivial⟩
  refine ⟨hgen, ?_, ?_, ?_, ?_⟩
  · intro s t
    cases t with
    | regex r =>
      rw [patternListenersA_regex]
      refine ⟨?_, rfl, rfl, rfl, rfl, rfl⟩
      exact mapEq_setOpt_restore_of_agree
        (fun k' hk => JsMap.lookup_setOpt_ne _ _ hk)
    | str n => exact ⟨MapEq.refl _, rfl, rfl, rfl, rfl, rfl⟩
    | other k => exact ⟨MapEq.refl _, rfl, rfl, rfl, rfl, rfl⟩
  · intro s t
    cases t with
    | regex r =>
      rw [patternListenerCountA_regex]
      refine ⟨?_, rfl, rfl, rfl, rfl, rfl⟩
      exact mapEq_setOpt_restore_of_agree
        (fun k' hk => JsMap.lookup_setOpt_ne _ _ hk)
    | str n => exact ⟨MapEq.refl _, rfl, rfl, rfl, rfl, rfl⟩
    | other k => exact ⟨MapEq.refl _, rfl, rfl, rfl, rfl, rfl⟩
  · intro s t
    cases t with
    | str n =>
      rw [patternListenersB_str]
      refine ⟨?_, rfl, rfl, rfl, rfl, rfl⟩
      exact mapEq_setOpt_restore_of_agree
        (fun k' hk => JsMap.lookup_setOpt_ne _ _ hk)
    | regex r => exact ⟨MapEq.refl _, rfl, rfl, rfl, rfl, rfl⟩
    | other k => exact ⟨MapEq.refl _, rfl, rfl, rfl, rfl, rfl⟩
  · intro s t
    cases t with
    | str n =>
      rw [patternListenerCountB_str]
      refine ⟨?_, rfl, rfl, rfl, rfl, rfl⟩
      exact mapEq_setOpt_restore_of_agree
        (fun k' hk => JsMap.lookup_setOpt_ne _ _ hk)
    | regex r => exact ⟨MapEq.refl _, rfl, rfl, rfl, rfl, rfl⟩
    | other k => exact ⟨MapEq.refl _, rfl, rfl, rfl, rfl, rfl⟩

/-- C9: for a non-string event type, `_getMatching` returns the literal bucket
for the type's property key as-is; `matchingListeners` flattens exactly that
bucket; and the result is independent of the pattern index and the pattern
buckets — no compiled pattern is tested and no pattern listener is
included. -/
theorem C9_non_string_literal_only :
    (∀ (s : EState) (t : EvVal), t.isStr = false →
      getMatching s t = s.events.lookup t.key) ∧
    (∀ (s : EState) (t : EvVal), t.isStr = false →
      matchingListenersOp s t = flattenOpt (s.events.lookup t.key)) ∧
    (∀ (s : EState) (t : EvVal) (pe : JsMap BVal) (rx : JsMap JsRegex),
      t.isStr = false →
      matchingListenersOp { s with patternEvents := pe, regexes := rx } t
        = matchingListenersOp s t) := by
  refine ⟨getMatching_not_str, ?_, ?_⟩
  · intro s t h
    rw [matchingListenersOp_eq_flatten, getMatching_not_str s t h]
  · intro s t pe rx h
    rw [matchingListenersOp_eq_flatten, matchingListenersOp_eq_flatten,
      getMatching_not_str _ t h, getMatching_not_str _ t h]

/-- C9 witness: a numeric-like event type (property key `"42"`) on a state
with one literal listener under that key and a catch-all pattern: only the
literal listener is considered. -/
theorem C9_non_string_literal_only_witness :
    getMatching
        { events := [("42", .one ⟨1, 0, none⟩)],
          patternEvents := [("/.*/", .one ⟨2, 0, none⟩)],
          regexes := [("/.*/", ⟨"/.*/", fun _ => true⟩)],
          regexesCount := 1, event := .str "", invoked := [] }
        (.other "42")
      = some (.one ⟨1, 0, none⟩) ∧
    matchingListenersOp
        { events := [("42", .one ⟨1, 0, none⟩)],
          patternEvents := [("/.*/", .one ⟨2, 0, none⟩)],
          regexes := [("/.*/", ⟨"/.*/", fun _ => true⟩)],
          regexesCount := 1, event := .str "", invoked := [] }
        (.other "42")
      = [some ⟨1, 0, none⟩] := by
  constructor
  · rw [C9_non_string_literal_only.1 _ (.other "42") rfl]
    rfl
  · rw [C9_non_string_literal_only.2.1 _ (.other "42") rfl]
    rfl

/-- The RegExp object `/^t.*/` used in the C6 failing input; its engine-level
`test` is instantiated to match exactly the emitted name `"test"` used
there. -/
def c6Regex : JsRegex := ⟨"/^t.*/", fun x => x == "test"⟩

/-- The C6 failing input: an emitter with a single pattern listener (id 1,
arity 0) registered on `/^t.*/`. -/
def c6State0 : EState :=
  (addListenerA initState (.regex c6Regex) (.fn ⟨1, 0, none⟩)).1

/-- The state after removing a listener (id 2) that was never registered. -/
def c6State1 : EState :=
  (removeListenerA c6State0 (.regex c6Regex) (.fn ⟨2, 0, none⟩)).1

/-- A variant with an arity-1 listener: the bucket survives, but the counter
drops to zero, so subsequent emits take the fast path and skip it. -/
def c6bState0 : EState :=
  (addListenerA initState (.regex c6Regex) (.fn ⟨1, 1, none⟩)).1

def c6bState1 : EState :=
  (removeListenerA c6bState0 (.regex c6Regex) (.fn ⟨2, 0, none⟩)).1

/-- C6 (code bug, evaluated at the failing input): removing a listener that
was never registered is not a no-op.  With one pattern listener of arity 0 on
`/^t.*/`, `removeListener(/^t.*/, g)` for an unregistered `g` completes
without error but deletes the registered listener's bucket and its compiled
pattern (the `.length` test reads the function's arity) and decrements
`_regexesCount` to 0.  With an arity-1 listener the bucket survives, but the
counter still drops to 0, so a subsequent `emit('test')` takes the fast path,
invokes nothing and returns false although the matching sequence is
non-empty. -/
theorem C6_remove_absent_not_noop :
    matchingListenersOp c6State0 (.str "test") = [some ⟨1, 0, none⟩] ∧
    (removeListenerA c6State0 (.regex c6Regex) (.fn ⟨2, 0, none⟩)).2 = none ∧
    c6State1.patternEvents = [] ∧
    c6State1.regexes = [] ∧
    c6State1.regexesCount = 0 ∧
    matchingListenersOp c6State1 (.str "test") = [] ∧
    matchingListenersOp c6bState1 (.str "test") = [some ⟨1, 1, none⟩] ∧
    c6bState1.regexesCount = 0 ∧
    (emitA (fun _ => .plain []) .a 9 c6bState1 (.str "test") []).2.1 = [] ∧
    (emitA (fun _ => .plain []) .a 9 c6bState1 (.str "test") []).2.2 = .ok false := by
  refine ⟨by decide, rfl, by decide, rfl, by decide, by decide, by decide, by decide,
    rfl, rfl⟩

/-- The RegExp object used in the C7 counterexample. -/
def c7Regex : JsRegex := ⟨"/a/", fun _ => true⟩

/-- C7 counterexample: registering a non-invocable listener under a RegExp key
throws the TypeError, but the emitter's state is not as it was before the
call — the pattern-listener counter has been incremented (and the `event`
field overwritten) before the error. -/
theorem C7_counterexample_mutation_before_error :
    (addListenerA initState (.regex c7Regex) .notFn).2 = some .typeError ∧
    (addListenerA initState (.regex c7Regex) .notFn).1.regexesCount = 1 ∧
    initState.regexesCount = 0 ∧
    (addListenerA initState (.regex c7Regex) .notFn).1.event = .str "newListener" ∧
    initState.event = .str "" := by
  refine ⟨rfl, by decide, by decide, rfl, rfl⟩

/-- C7 as amended: every ill-typed registration or pattern-only call throws a
TypeError synchronously and leaves the listener and pattern maps unchanged
(the literal map at every read); the pattern-only calls with a non-pattern
key, `onceOnPattern`'s two validations, and the literal-key forms throw
before any mutation at all; but `addListener`/`removeListener` with a RegExp
key and a non-invocable listener mutate the `event` field and the
`_regexesCount` counter before the error, and
`addPatternListener`/`removePatternListener` with a string pattern and a
non-invocable listener mutate the `event` field before the error. -/
theorem C7_ill_typed_calls :
    (∀ (s : EState) (r : JsRegex),
      (addListenerA s (.regex r) .notFn).2 = some .typeError ∧
      MapEq (addListenerA s (.regex r) .notFn).1.events s.events ∧
      (addListenerA s (.regex r) .notFn).1.patternEvents = s.patternEvents ∧
      (addListenerA s (.regex r) .notFn).1.regexes = s.regexes ∧
      (addListenerA s (.regex r) .notFn).1.regexesCount = s.regexesCount + 1 ∧
      (addListenerA s (.regex r) .notFn).1.event = .str "newListener") ∧
    (∀ (s : EState) (r : JsRegex),
      (removeListenerA s (.regex r) .notFn).2 = some .typeError ∧
      MapEq (removeListenerA s (.regex r) .notFn).1.events s.events ∧
      (removeListenerA s (.regex r) .notFn).1.patternEvents = s.patternEvents ∧
      (removeListenerA s (.regex r) .notFn).1.regexes = s.regexes ∧
      (removeListenerA s (.regex r) .notFn).1.regexesCount = s.regexesCount - 1 ∧
      (removeListenerA s (.regex r) .notFn).1.event = .str "removeListener") ∧
    (∀ (s : EState) (n : String),
      addListenerA s (.str n) .notFn = (s, some .typeError) ∧
      removeListenerA s (.str n) .notFn = (s, some .typeError)) ∧
    (∀ (s : EState) (k : String),
      addListenerA s (.other k) .notFn = (s, some .typeError) ∧
      removeListenerA s (.other k) .notFn = (s, some .typeError)) ∧
    (∀ (compile : String → String → Bool) (s : EState) (p : EvVal) (l : JsArg),
      p.isStr = false → addPatternListener compile s p l = (s, some .typeError)) ∧
    (∀ (compile : String → String → Bool) (s : EState) (p : String),
      (addPatternListener compile s (.str p) .notFn).2 = some .typeError ∧
      MapEq (addPatternListener compile s (.str p) .notFn).1.events s.events ∧
      (addPatternListener compile s (.str p) .notFn).1.patternEvents = s.patternEvents ∧
      (addPatternListener compile s (.str p) .notFn).1.regexes = s.regexes ∧
      (addPatternListener compile s (.str p) .notFn).1.regexesCount = s.regexesCount ∧
      (addPatternListener compile s (.str p) .notFn).1.event = .str "newListener") ∧
    (∀ (s : EState) (p : EvVal) (l : JsArg), p.isStr = false →
      removePatternListenerOp s p l = (s, some .typeError)) ∧
    (∀ (s : EState) (p : String),
      (removePatternListenerOp s (.str p) .notFn).2 = some .typeError ∧
      MapEq (removePatternListenerOp s (.str p) .notFn).1.events s.events ∧
      (removePatternListenerOp s (.str p) .notFn).1.patternEvents = s.patternEvents ∧
      (removePatternListenerOp s (.str p) .notFn).1.regexes = s.regexes ∧
      (removePatternListenerOp s (.str p) .notFn).1.regexesCount = s.regexesCount ∧
      (removePatternListenerOp s (.str p) .notFn).1.event = .str "removeListener") ∧
    (∀ (compile : String → String → Bool) (s : EState) (p : EvVal) (l : JsArg)
      (wid : Nat), p.isStr = false →
      onceOnPattern compile s p l wid = (s, some .typeError)) ∧
    (∀ (compile : String → String → Bool) (s : EState) (p : String) (wid : Nat),
      onceOnPattern compile s (.str p) .notFn wid = (s, some .typeError)) ∧
    (∀ (s : EState) (n : String),
      patternListenersA s (.str n) = (s, .error .typeError) ∧
      patternListenerCountA s (.str n) = (s, .error .typeError) ∧
      patternListenersB s (.regex ⟨n, fun _ => false⟩)
        = (s, .error .typeError) ∧
      patternListenerCountB s (.regex ⟨n, fun _ => false⟩)
        = (s, .error .typeError)) := by
  refine ⟨?_, ?_, ?_, ?_, ?_, ?_, ?_, ?_, ?_, ?_, ?_⟩
  · intro s r
    have h := addListenerA_regex_notFn s r
    exact ⟨h.1, h.2.1, h.2.2.1, h.2.2.2.1, h.2.2.2.2.1, h.2.2.2.2.2.1⟩
  · intro s r
    have h := removeListenerA_regex_notFn s r
    exact ⟨h.1, h.2.1, h.2.2.1, h.2.2.2.1, h.2.2.2.2.1, h.2.2.2.2.2.1⟩
  · intro s n
    exact ⟨rfl, rfl⟩
  · intro s k
    exact ⟨rfl, rfl⟩
  · intro compile s p l hp
    exact addPatternListener_notStr compile s hp l
  · intro compile s p
    have h := addPatternListener_str_notFn compile s p
    exact ⟨h.1, h.2.1, h.2.2.1, h.2.2.2.1, h.2.2.2.2.1, h.2.2.2.2.2.1⟩
  · intro s p l hp
    exact removePatternListenerOp_notStr s hp l
  · intro s p
    have h := removePatternListenerOp_str_notFn s p
    exact ⟨h.1, h.2.1, h.2.2.1, h.2.2.2.1, h.2.2.2.2.1, h.2.2.2.2.2.1⟩
  · intro compile s p l wid hp
    cases p with
    | str q => simp [EvVal.isStr] at hp
    | regex r => cases l <;> rfl
    | other k => cases l <;> rfl
  · intro compile s p wid
    rfl
  · intro s n
    exact ⟨rfl, rfl, rfl, rfl⟩

/-- C7 witness: the guard-first operations at concrete ill-typed inputs. -/
theorem C7_ill_typed_calls_witness :
    addPatternListener (fun _ _ => true) initState (.other "1") .notFn
      = (initState, some .typeError) ∧
    onceOnPattern (fun _ _ => true) initState (.other "1") (.fn ⟨1, 0, none⟩) 9
      = (initState, some .typeError) :=
  ⟨C7_ill_typed_calls.2.2.2.2.1 (fun _ _ => true) initState (.other "1") .notFn rfl,
   C7_ill_typed_calls.2.2.2.2.2.2.2.2.1 (fun _ _ => true) initState (.other "1")
     (.fn ⟨1, 0, none⟩) 9 rfl⟩

theorem addBucket_toList_ne (v? : Option BVal) (f : LEntry) :
    (addBucket v? f).toList ≠ [] := by
  cases v? with
  | none => simp [addBucket, BVal.toList]
  | some b => cases b <;> simp [addBucket, BVal.toList]

theorem removeBucket_some_isSome {t : Nat} {v? : Option BVal} {b : BVal}
    (h : removeBucket t v? = .ok (some b)) : v?.isSome := by
  cases v? with
  | none => simp [removeBucket] at h
  | some b0 => rfl

theorem cleanupBucket_some_ne {w : Option BVal} {b : BVal}
    (h : cleanupBucket w = some b) : b.toList ≠ [] := by
  cases w with
  | none => simp [cleanupBucket] at h
  | some b0 =>
    simp only [cleanupBucket] at h
    by_cases hlen : b0.jsLength = 0
    · rw [if_pos hlen] at h
      cases h
    · rw [if_neg hlen] at h
      have hb := Option.some.inj h
      subst hb
      cases b0 with
      | one f => simp [BVal.toList]
      | arr xs =>
        simp only [BVal.jsLength] at hlen
        simpa [BVal.toList] using List.length_pos.mp (Nat.pos_of_ne_zero hlen)

/-- An operation that does not touch the pattern maps preserves the registry
invariant. -/
theorem registryInv_congr {s s' : EState} (h1 : s'.regexes = s.regexes)
    (h2 : s'.patternEvents = s.patternEvents) (h : RegistryInv s) :
    RegistryInv s' := by
  unfold RegistryInv
  rw [h1, h2]
  exact h

theorem registryInv_init : RegistryInv initState := by
  constructor
  · intro p
    simp [initState, JsMap.lookup]
  · intro p hp
    simp [initState, JsMap.lookup] at hp

/-- The invariant step for adding a listener into the pattern bucket at `p`
and registering the compiled pattern if new. -/
theorem registryInv_add {s s' : EState} (p : String) (f : LEntry)
    (hpe : s'.patternEvents = s.patternEvents.set p (addBucket (s.patternEvents.lookup p) f))
    (hrx : s'.regexes
      = (if (s.regexes.lookup p).isSome then s.regexes else s.regexes.set p r0))
    (hinv : RegistryInv s) : RegistryInv s' := by
  constructor
  · intro q
    by_cases hq : q = p
    · subst hq
      rw [hpe, JsMap.lookup_set_self]
      rw [hrx]
      by_cases hr : (s.regexes.lookup q).isSome
      · simp [hr]
      · simp [hr, JsMap.lookup_set_self]
    · rw [hpe, JsMap.lookup_set_ne _ _ hq, hrx]
      by_cases hr : (s.regexes.lookup p).isSome
      · rw [if_pos hr]
        exact hinv.1 q
      · rw [if_neg hr, JsMap.lookup_set_ne _ _ hq]
        exact hinv.1 q
  · intro q hq
    by_cases hqp : q = p
    · subst hqp
      rw [hpe, JsMap.lookup_set_self]
      exact ⟨_, rfl, addBucket_toList_ne _ _⟩
    · rw [hpe, JsMap.lookup_set_ne _ _ hqp]
      apply hinv.2 q
      rw [hrx] at hq
      by_cases hr : (s.regexes.lookup p).isSome
      · rwa [if_pos hr] at hq
      · rw [if_neg hr, JsMap.lookup_set_ne _ _ hqp] at hq
        exact hq

/-- The invariant step for a remove with post-cleanup at `p`. -/
theorem registryInv_remove {s s' : EState} (p : String) {w : Option BVal}
    (hw : ∀ b, w = some b → (s.patternEvents.lookup p).isSome)
    (hpe : s'.patternEvents
      = (match cleanupBucket w with
         | none => s.patternEvents.erase p
         | some b => s.patternEvents.set p b))
    (hrx : s'.regexes
      = (if cleanupBucket w = none ∧ (s.regexes.lookup p).isSome then
           s.regexes.erase p
         else s.regexes))
    (hinv : RegistryInv s) : RegistryInv s' := by
  cases hcb : cleanupBucket w with
  | none =>
    rw [hcb] at hpe hrx
    simp only [true_and] at hrx
    constructor
    · intro q
      by_cases hq : q = p
      · subst hq
        rw [hpe, JsMap.lookup_erase_self, hrx]
        by_cases hr : (s.regexes.lookup q).isSome
        · simp [hr, JsMap.lookup_erase_self]
        · simp [if_neg hr, hr]
      · rw [hpe, JsMap.lookup_erase_ne _ hq, hrx]
        by_cases hr : (s.regexes.lookup p).isSome
        · rw [if_pos hr, JsMap.lookup_erase_ne _ hq]
          exact hinv.1 q
        · rw [if_neg hr]
          exact hinv.1 q
    · intro q hq
      by_cases hqp : q = p
      · subst hqp
        rw [hrx] at hq
        by_cases hr : (s.regexes.lookup q).isSome
        · rw [if_pos hr, JsMap.lookup_erase_self] at hq
          simp at hq
        · rw [if_neg hr] at hq
          exact absurd hq hr
      · rw [hpe, JsMap.lookup_erase_ne _ hqp]
        apply hinv.2 q
        rw [hrx] at hq
        by_cases hr : (s.regexes.lookup p).isSome
        · rwa [if_pos hr, JsMap.lookup_erase_ne _ hqp] at hq
        · rwa [if_neg hr] at hq
  | some b =>
    rw [hcb] at hpe hrx
    have hrx' : s'.regexes = s.regexes := by
      rw [hrx, if_neg]
      intro hc
      cases hc.1
    have hwsome : ∃ b0, w = some b0 := by
      cases w with
      | none => simp [cleanupBucket] at hcb
      | some b0 => exact ⟨b0, rfl⟩
    obtain ⟨b0, rfl⟩ := hwsome
    have hps : (s.patternEvents.lookup p).isSome := hw b0 rfl
    constructor
    · intro q
      by_cases hq : q = p
      · subst hq
        rw [hpe, JsMap.lookup_set_self, hrx']
        simp [(hinv.1 q).mpr hps]
      · rw [hpe, JsMap.lookup_set_ne _ _ hq, hrx']
        exact hinv.1 q
    · intro q hq
      rw [hrx'] at hq
      by_cases hqp : q = p
      · subst hqp
        rw [hpe, JsMap.lookup_set_self]
        exact ⟨b, rfl, cleanupBucket_some_ne hcb⟩
      · rw [hpe, JsMap.lookup_set_ne _ _ hqp]
        exact hinv.2 q hq

/-- The invariant step for deleting a bucket and its pattern at `p`. -/
theorem registryInv_removeAll {s s' : EState} (p : String)
    (hpe : s'.patternEvents = s.patternEvents.erase p)
    (hrx : s'.regexes
      = (if (s.regexes.lookup p).isSome then s.regexes.erase p else s.regexes))
    (hinv : RegistryInv s) : RegistryInv s' := by
  constructor
  · intro q
    by_cases hq : q = p
    · subst hq
      rw [hpe, JsMap.lookup_erase_self, hrx]
      by_cases hr : (s.regexes.lookup q).isSome
      · simp [hr, JsMap.lookup_erase_self]
      · simp [if_neg hr, hr]
    · rw [hpe, JsMap.lookup_erase_ne _ hq, hrx]
      by_cases hr : (s.regexes.lookup p).isSome
      · rw [if_pos hr, JsMap.lookup_erase_ne _ hq]
        exact hinv.1 q
      · rw [if_neg hr]
        exact hinv.1 q
  · intro q hq
    by_cases hqp : q = p
    · subst hqp
      rw [hrx] at hq
      by_cases hr : (s.regexes.lookup q).isSome
      · rw [if_pos hr, JsMap.lookup_erase_self] at hq
        simp at hq
      · rw [if_neg hr] at hq
        exact absurd hq hr
    · rw [hpe, JsMap.lookup_erase_ne _ hqp]
      apply hinv.2 q
      rw [hrx] at hq
      by_cases hr : (s.regexes.lookup p).isSome
      · rwa [if_pos hr, JsMap.lookup_erase_ne _ hqp] at hq
      · rwa [if_neg hr] at hq

/-- C3: every public registry operation — `addListener`, `removeListener`,
`removeAllListeners` of the RegExp API (on any argument shape, literal or
pattern, well- or ill-typed), and `addPatternListener`,
`removePatternListener`, `removeAllPatternListeners`, `onceOnPattern` of the
string API — preserves the registry invariant: `_regexes` and
`_patternEvents` have identical key sets, and every pattern key has at least
one listener.  Moreover, removing the last listener of a pattern key deletes
both its bucket and its compiled pattern, in both API revisions. -/
theorem C3_registry_invariant :
    (∀ (s : EState) (t : EvVal) (l : JsArg), RegistryInv s →
      RegistryInv (addListenerA s t l).1) ∧
    (∀ (s : EState) (t : EvVal) (l : JsArg), RegistryInv s →
      RegistryInv (removeListenerA s t l).1) ∧
    (∀ (s : EState) (t : EvVal), RegistryInv s →
      RegistryInv (removeAllListenersA s t).1) ∧
    (∀ (compile : String → String → Bool) (s : EState) (p : EvVal) (l : JsArg),
      RegistryInv s → RegistryInv (addPatternListener compile s p l).1) ∧
    (∀ (s : EState) (p : EvVal) (l : JsArg), RegistryInv s →
      RegistryInv (removePatternListenerOp s p l).1) ∧
    (∀ (s : EState) (p : EvVal), RegistryInv s →
      RegistryInv (removeAllPatternListeners s p).1) ∧
    (∀ (compile : String → String → Bool) (s : EState) (p : EvVal) (l : JsArg)
      (wid : Nat), RegistryInv s →
      RegistryInv (onceOnPattern compile s p l wid).1) ∧
    (∀ (s : EState) (r : JsRegex) (tgt f : LEntry),
      s.patternEvents.lookup r.src = some (.one f) →
      entryMatches f tgt.id = true →
      (removeListenerA s (.regex r) (.fn tgt)).1.patternEvents.lookup r.src = none ∧
      (removeListenerA s (.regex r) (.fn tgt)).1.regexes.lookup r.src = none) ∧
    (∀ (s : EState) (p : String) (tgt f : LEntry),
      s.patternEvents.lookup p = some (.one f) →
      entryMatches f tgt.id = true →
      (removePatternListenerOp s (.str p) (.fn tgt)).1.patternEvents.lookup p = none ∧
      (removePatternListenerOp s (.str p) (.fn tgt)).1.regexes.lookup p = none) := by
  have hAddLit : ∀ (s : EState) (key : String) (l : JsArg),
      (match eeAddListener s.events key l with
        | .ok ev => ({ s with events := ev }, (none : Option JsErr))
        | .error e => (s, some e)).1.patternEvents = s.patternEvents ∧
      (match eeAddListener s.events key l with
        | .ok ev => ({ s with events := ev }, (none : Option JsErr))
        | .error e => (s, some e)).1.regexes = s.regexes := by
    intro s key l
    cases h : eeAddListener s.events key l <;> simp [h]
  have hRemLit : ∀ (s : EState) (key : String) (l : JsArg),
      (match eeRemoveListener s.events key l with
        | .ok ev => ({ s with events := ev }, (none : Option JsErr))
        | .error e => (s, some e)).1.patternEvents = s.patternEvents ∧
      (match eeRemoveListener s.events key l with
        | .ok ev => ({ s with events := ev }, (none : Option JsErr))
        | .error e => (s, some e)).1.regexes = s.regexes := by
    intro s key l
    cases h : eeRemoveListener s.events key l <;> simp [h]
  have hAdd : ∀ (s : EState) (t : EvVal) (l : JsArg), RegistryInv s →
      RegistryInv (addListenerA s t l).1 := by
    intro s t l hinv
    cases t with
    | regex r =>
      cases l with
      | fn f =>
        have h := addListenerA_regex_fn s r f
        exact registryInv_add r.src f h.2.2.1 h.2.2.2.1 hinv
      | notFn =>
        have h := addListenerA_regex_notFn s r
        exact registryInv_congr h.2.2.2.1 h.2.2.1 hinv
    | str n =>
      have h := hAddLit s (EvVal.str n).key l
      exact registryInv_congr h.2 h.1 hinv
    | other k =>
      have h := hAddLit s (EvVal.other k).key l
      exact registryInv_congr h.2 h.1 hinv
  have hRemove : ∀ (s : EState) (t : EvVal) (l : JsArg), RegistryInv s →
      RegistryInv (removeListenerA s t l).1 := by
    intro s t l hinv
    cases t with
    | regex r =>
      cases l with
      | fn tgt =>
        cases hw : removeBucket tgt.id (s.patternEvents.lookup r.src) with
        | ok w =>
          have h := removeListenerA_regex_fn s r tgt hw
          refine registryInv_remove r.src ?_ h.2.2.1 h.2.2.2.1 hinv
          intro b hb
          subst hb
          exact removeBucket_some_isSome hw
        | error e =>
          have hG : removeG (.fn tgt) (s.patternEvents.lookup r.src) = .error e := by
            simp [removeG, hw]
          have h : (removeListenerA s (.regex r) (.fn tgt)).1.patternEvents
                = s.patternEvents ∧
              (removeListenerA s (.regex r) (.fn tgt)).1.regexes = s.regexes := by
            simp only [removeListenerA, removeFn_eq_bucketStep]
            rw [applyOp_bucketStep_err (s := { s with event := EvVal.str "removeListener", regexesCount := s.regexesCount - 1 }) hG]
            exact ⟨rfl, rfl⟩
          exact registryInv_congr h.2 h.1 hinv
      | notFn =>
        have h := removeListenerA_regex_notFn s r
        exact registryInv_congr h.2.2.2.1 h.2.2.1 hinv
    | str n =>
      have h := hRemLit s (EvVal.str n).key l
      exact registryInv_congr h.2 h.1 hinv
    | other k =>
      have h := hRemLit s (EvVal.other k).key l
      exact registryInv_congr h.2 h.1 hinv
  have hAddPat : ∀ (compile : String → String → Bool) (s : EState) (p : EvVal)
      (l : JsArg), RegistryInv s →
      RegistryInv (addPatternListener compile s p l).1 := by
    intro compile s p l hinv
    cases p with
    | str q =>
      cases l with
      | fn f =>
        have h := addPatternListener_str_fn compile s q f
        exact registryInv_add q f h.2.2.1 h.2.2.2.1 hinv
      | notFn =>
        have h := addPatternListener_str_notFn compile s q
        exact registryInv_congr h.2.2.2.1 h.2.2.1 hinv
    | regex r =>
      rw [addPatternListener_notStr compile s (by rfl) l]
      exact hinv
    | other k =>
      rw [addPatternListener_notStr compile s (by rfl) l]
      exact hinv
  have hRemovePat : ∀ (s : EState) (p : EvVal) (l : JsArg), RegistryInv s →
      RegistryInv (removePatternListenerOp s p l).1 := by
    intro s p l hinv
    cases p with
    | str q =>
      cases l with
      | fn tgt =>
        cases hw : removeBucket tgt.id (s.patternEvents.lookup q) with
        | ok w =>
          have h := removePatternListenerOp_str_fn s q tgt hw
          refine registryInv_remove q ?_ h.2.2.1 h.2.2.2.1 hinv
          intro b hb
          subst hb
          exact removeBucket_some_isSome hw
        | error e =>
          have h := removePatternListenerOp_str_fn_err s q tgt hw
          exact registryInv_congr h.2.2.2.1 h.2.2.1 hinv
      | notFn =>
        have h := removePatternListenerOp_str_notFn s q
        exact registryInv_congr h.2.2.2.1 h.2.2.1 hinv
    | regex r =>
      rw [removePatternListenerOp_notStr s (by rfl) l]
      exact hinv
    | other k =>
      rw [removePatternListenerOp_notStr s (by rfl) l]
      exact hinv
  refine ⟨hAdd, hRemove, ?_, hAddPat, hRemovePat, ?_, ?_, ?_, ?_⟩
  · intro s t hinv
    cases t with
    | regex r =>
      have h := removeAllListenersA_regex s r
      exact registryInv_removeAll r.src h.2.2.1 h.2.2.2.1 hinv
    | str n => exact registryInv_congr rfl rfl hinv
    | other k => exact registryInv_congr rfl rfl hinv
  · intro s p hinv
    cases p with
    | str q =>
      have h := removeAllPatternListeners_str s q
      exact registryInv_removeAll q h.2.2.1 h.2.2.2.1 hinv
    | regex r => exact hinv
    | other k => exact hinv
  · intro compile s p l wid hinv
    cases p with
    | str q =>
      cases l with
      | fn f => exact hAddPat compile s (.str q) (.fn ⟨wid, 0, some f.id⟩) hinv
      | notFn => exact hinv
    | regex r => cases l <;> exact hinv
    | other k => cases l <;> exact hinv
  · intro s r tgt f hb hm
    have hw : removeBucket tgt.id (s.patternEvents.lookup r.src) = .ok none := by
      simp [removeBucket, hb, hm]
    have h := removeListenerA_regex_fn s r tgt hw
    constructor
    · rw [h.2.2.1]
      simp [cleanupBucket, JsMap.lookup_erase_self]
    · rw [h.2.2.2.1]
      by_cases hr : (s.regexes.lookup r.src).isSome = true
      · rw [if_pos ⟨rfl, hr⟩]
        exact JsMap.lookup_erase_self _ _
      · rw [if_neg (fun hc => hr hc.2)]
        exact Option.not_isSome_iff_eq_none.mp hr
  · intro s p tgt f hb hm
    have hw : removeBucket tgt.id (s.patternEvents.lookup p) = .ok none := by
      simp [removeBucket, hb, hm]
    have h := removePatternListenerOp_str_fn s p tgt hw
    constructor
    · rw [h.2.2.1]
      simp [cleanupBucket, JsMap.lookup_erase_self]
    · rw [h.2.2.2.1]
      by_cases hr : (s.regexes.lookup p).isSome = true
      · rw [if_pos ⟨rfl, hr⟩]
        exact JsMap.lookup_erase_self _ _
      · rw [if_neg (fun hc => hr hc.2)]
        exact Option.not_isSome_iff_eq_none.mp hr

/-- C3 witness: registering and then removing a single pattern listener on a
fresh emitter keeps the invariant, and the removal deletes both entries. -/
theorem C3_registry_invariant_witness :
    RegistryInv (addListenerA initState
      (.regex ⟨"/a/", fun _ => true⟩) (.fn ⟨1, 1, none⟩)).1 ∧
    ((removeListenerA
        (addListenerA initState (.regex ⟨"/a/", fun _ => true⟩) (.fn ⟨1, 1, none⟩)).1
        (.regex ⟨"/a/", fun _ => true⟩)
        (.fn ⟨1, 1, none⟩)).1.patternEvents.lookup "/a/" = none ∧
     (removeListenerA
        (addListenerA initState (.regex ⟨"/a/", fun _ => true⟩) (.fn ⟨1, 1, none⟩)).1
        (.regex ⟨"/a/", fun _ => true⟩)
        (.fn ⟨1, 1, none⟩)).1.regexes.lookup "/a/" = none) :=
  ⟨C3_registry_invariant.1 initState (.regex ⟨"/a/", fun _ => true⟩) (.fn ⟨1, 1, none⟩)
      registryInv_init,
   C3_registry_invariant.2.2.2.2.2.2.2.1
      (addListenerA initState (.regex ⟨"/a/", fun _ => true⟩) (.fn ⟨1, 1, none⟩)).1
      ⟨"/a/", fun _ => true⟩ ⟨1, 1, none⟩ ⟨1, 1, none⟩ (by decide) (by decide)⟩

theorem bucketsOK_nil : BucketsOK ([] : JsMap BVal) := by
  intro k b h
  simp [JsMap.lookup] at h

theorem wf_init : WF initState :=
  ⟨bucketsOK_nil, bucketsOK_nil, registryInv_init, fun _ => rfl⟩

theorem flattenOpt_ne_nil_iff {m : JsMap BVal} (hm : BucketsOK m) (k : String) :
    (m.lookup k).isSome = true ↔ flattenOpt (m.lookup k) ≠ [] := by
  cases h : m.lookup k with
  | none => simp [flattenOpt]
  | some b =>
    simp only [Option.isSome_some, flattenOpt, true_iff]
    exact (hm k b h).1

/-- The boundary of claim C1's property: whenever the RegExp revision's
`emit` returns (rather than throwing), its boolean result is true exactly
when the matching sequence is non-empty — provided the state satisfies `WF`:
sound buckets, the registry invariant, and a zero `_regexesCount` only with
an empty pattern index.  The last clause is the fast-path soundness
condition; it is not maintained by the public API (removing an absent
pattern listener violates it, see the claims C1 and C6), which is exactly
why the unrestricted property fails. -/
theorem emitA_result_of_wf (B : Nat → Behavior) (rev : Rev) (fuel : Nat) (s : EState)
    (t : EvVal) (args : List Nat) (s' : EState) (tr : List Inv) (b : Bool)
    (hwf : WF s) (h : emitA B rev fuel s t args = (s', tr, .ok b)) :
    b = true ↔ claimMatchingSeq s t ≠ [] := by
  have h3 : (emitA B rev fuel s t args).2.2 = .ok b := by rw [h]
  clear h
  cases fuel with
  | zero => simp [emitA] at h3
  | succ fuel =>
    rw [emitA] at h3
    by_cases hc : s.regexesCount = 0
    · rw [if_pos hc] at h3
      have hb := eeEmit_ok_result B rev fuel s t args h3
      have hrx : s.regexes = [] := hwf.2.2.2 hc
      cases t with
      | str n =>
        rw [hb]
        simp only [claimMatchingSeq, matchingSpec, hrx, List.flatMap_nil,
          List.append_nil]
        exact flattenOpt_ne_nil_iff hwf.1 n
      | regex r =>
        rw [hb]
        exact flattenOpt_ne_nil_iff hwf.1 _
      | other k =>
        rw [hb]
        exact flattenOpt_ne_nil_iff hwf.1 _
    · rw [if_neg hc] at h3
      simp only [] at h3
      have hb := eeEmit_ok_result B rev fuel _ t args h3
      simp only [] at hb
      rw [JsMap.lookup_setOpt_self] at hb
      have hg : getMatching { s with event := t } t = getMatching s t := rfl
      rw [hg] at hb
      cases t with
      | str n =>
        have hmb : MatchedHaveBuckets s n := matchedHaveBuckets_of_inv s hwf.2.2.1 n
        have hspec := getMatching_spec s n hmb
        cases hgm : getMatching s (.str n) with
        | none =>
          rw [hgm] at hb hspec
          simp only [flattenOpt] at hspec
          simp [hb, claimMatchingSeq, ← hspec]
        | some m =>
          rw [hgm] at hb hspec
          simp only [flattenOpt] at hspec
          have hne := getMatching_some_ne s n hwf.1 hwf.2.1 hgm
          simp only [claimMatchingSeq, ← hspec]
          simp [hb, hne]
      | regex r =>
        rw [getMatching_not_str s _ (by rfl)] at hb
        rw [hb]
        exact flattenOpt_ne_nil_iff hwf.1 _
      | other k =>
        rw [getMatching_not_str s _ (by rfl)] at hb
        rw [hb]
        exact flattenOpt_ne_nil_iff hwf.1 _

/-- A concrete instance exercising `emitA_result_of_wf`'s hypotheses: an emit
on a fresh well-formed emitter returns false, and the matching sequence is
empty. -/
theorem emitA_result_of_wf_instance :
    (false = true) ↔ claimMatchingSeq initState (.str "x") ≠ [] :=
  emitA_result_of_wf (fun _ => .plain []) .a 2 initState (.str "x") [] initState []
    false wf_init rfl

/-- C1 (code bug, evaluated at the failing input): the result of the RegExp
revision's `emit` does not always indicate whether the matching sequence is
non-empty.  In the reachable state `c6bState1` — built by
`addListener(/^t.*/, f)` with an arity-1 listener `f` followed by
`removeListener(/^t.*/, g)` for an unregistered `g` — the matching sequence
for `'test'` is still `[f]`, yet `emit('test', 7)` invokes nothing and
returns `false`: the removal's unconditional `_regexesCount` decrement
(line 133, the C6 bug) lets the counter reach 0 with the pattern still
registered, and the fast path (lines 54-57) then skips matching entirely.
The string revision's `emit`, which has no fast path, invokes `f` (with the
arguments forwarded and `event` recorded) and returns `true` in the very
same state, as the claim describes. -/
theorem C1_emit_false_despite_match :
    claimMatchingSeq c6bState1 (.str "test") = [some ⟨1, 1, none⟩] ∧
    (emitA (fun _ => .plain []) .a 9 c6bState1 (.str "test") [7]).2.2 = .ok false ∧
    (emitA (fun _ => .plain []) .a 9 c6bState1 (.str "test") [7]).2.1 = [] ∧
    (emitB (fun _ => .plain []) .b 9 c6bState1 (.str "test") [7]).2.2 = .ok true ∧
    (emitB (fun _ => .plain []) .b 9 c6bState1 (.str "test") [7]).2.1
      = [⟨1, [7], .str "test"⟩] := by
  refine ⟨by decide, rfl, rfl, rfl, rfl⟩

/-- A minimal two-listener emitter: one literal listener `L` under the name
`N`, one pattern listener `P` under pattern key `p`, and the compiled pattern
`r` — the configuration of claim C2's pairwise ordering property. -/
def pairState (N p : String) (r : JsRegex) (L P : LEntry) (e0 : EvVal) : EState :=
  ⟨[(N, .one L)], [(p, .one P)], [(p, r)], 1, e0, []⟩

theorem emitA_pair (B : Nat → Behavior) (fuel : Nat) (N p : String) (r : JsRegex)
    (L P : LEntry) (args : List Nat) (e0 : EvVal)
    (ht : r.test N = true) (hL : B L.id = .plain []) (hP : B P.id = .plain []) :
    emitA B .a (fuel + 6) (pairState N p r L P e0) (.str N) args
      = (pairState N p r L P (.str N),
         [⟨L.id, args, .str N⟩, ⟨P.id, args, .str N⟩], .ok true) := by
  rw [show fuel + 6 = (((((fuel + 1) + 1) + 1) + 1) + 1) + 1 from rfl]
  simp [pairState, emitA, eeEmit, runSeq, runListener, runCmds, getMatching,
    JsMap.lookup, JsMap.set, JsMap.setOpt, JsMap.erase, EvVal.key, EvVal.isStr,
    EvVal.isErrorType, BVal.toList, flattenOpt, ht, hL, hP]

/-- C2: the matching sequence for a string name is ordered exactly as the
spec says — the literal bucket first in insertion order, then each matching
pattern's bucket in pattern-registration order, each in listener-registration
order (`_getMatching` refines `matchingSpec` whenever every matching pattern
key has a bucket, as the registry invariant guarantees); and in particular,
with one literal listener `L` on `N` and one pattern listener `P` whose
pattern matches `N` and no other registrations, `emit(N)` invokes exactly
`L` then `P`, once each, and returns true. -/
theorem C2_matching_order :
    (∀ (s : EState) (n : String), MatchedHaveBuckets s n →
      matchingListenersOp s (.str n) = matchingSpec s n) ∧
    (∀ (B : Nat → Behavior) (fuel : Nat) (N p : String) (r : JsRegex)
      (L P : LEntry) (args : List Nat) (e0 : EvVal),
      r.test N = true → B L.id = .plain [] → B P.id = .plain [] →
      emitA B .a (fuel + 6) (pairState N p r L P e0) (.str N) args
        = (pairState N p r L P (.str N),
           [⟨L.id, args, .str N⟩, ⟨P.id, args, .str N⟩], .ok true)) := by
  constructor
  · intro s n h
    rw [matchingListenersOp_eq_flatten]
    exact getMatching_spec s n h
  · intro B fuel N p r L P args e0 ht hL hP
    exact emitA_pair B fuel N p r L P args e0 ht hL hP

/-- C2 witness: one literal listener (id 1) on "test" and one pattern
listener (id 2) on a pattern matching "test": the matching sequence refines
the spec and emit dispatches listener 1 then listener 2, returning true. -/
theorem C2_matching_order_witness :
    (matchingListenersOp
        (pairState "test" "/^t.*/" ⟨"/^t.*/", fun x => x == "test"⟩
          ⟨1, 0, none⟩ ⟨2, 0, none⟩ (.str "")) (.str "test")
      = matchingSpec
        (pairState "test" "/^t.*/" ⟨"/^t.*/", fun x => x == "test"⟩
          ⟨1, 0, none⟩ ⟨2, 0, none⟩ (.str "")) "test") ∧
    emitA (fun _ => .plain []) .a (0 + 6)
        (pairState "test" "/^t.*/" ⟨"/^t.*/", fun x => x == "test"⟩
          ⟨1, 0, none⟩ ⟨2, 0, none⟩ (.str "")) (.str "test") [7]
      = (pairState "test" "/^t.*/" ⟨"/^t.*/", fun x => x == "test"⟩
          ⟨1, 0, none⟩ ⟨2, 0, none⟩ (.str "test"),
         [⟨1, [7], .str "test"⟩, ⟨2, [7], .str "test"⟩], .ok true) :=
  ⟨C2_matching_order.1 _ "test"
    (by
      intro pr hpr _
      simp only [pairState, List.mem_singleton] at hpr
      subst hpr
      simp [pairState, JsMap.lookup]),
   C2_matching_order.2 (fun _ => .plain []) 0 "test" "/^t.*/"
     ⟨"/^t.*/", fun x => x == "test"⟩ ⟨1, 0, none⟩ ⟨2, 0, none⟩ [7] (.str "")
     (by decide) rfl rfl⟩

/-- The C8 failing input: a fresh emitter with a single literal listener
(id 1) on "test" and no pattern listeners. -/
def c8State : EState := (addListenerA initState (.str "test") (.fn ⟨1, 0, none⟩)).1

/-- C8 (code bug, evaluated at the failing input): on the RegExp revision's
fast path (no pattern listeners), `emit('test', 7)` returns before
`this.event = type` runs, so the invoked listener observes the stale `event`
value `''` and the property still reads `''` afterwards — contradicting the
claim and the source's own documentation of `event` ("The type of the last
emitted event").  The argument list is forwarded unmodified.  The string
revision's `emit`, and the RegExp revision's slow path, record the name as
claimed. -/
theorem C8_event_context :
    (emitA (fun _ => .plain []) .a 9 c8State (.str "test") [7]).2.1
      = [⟨1, [7], .str ""⟩] ∧
    (emitA (fun _ => .plain []) .a 9 c8State (.str "test") [7]).1.event = .str "" ∧
    (emitA (fun _ => .plain []) .a 9 c8State (.str "test") [7]).2.2 = .ok true ∧
    (emitB (fun _ => .plain []) .b 9 c8State (.str "test") [7]).2.1
      = [⟨1, [7], .str "test"⟩] ∧
    (emitB (fun _ => .plain []) .b 9 c8State (.str "test") [7]).1.event
      = .str "test" ∧
    (emitA (fun _ => .plain []) .a 9
        (pairState "test" "/t/" ⟨"/t/", fun x => x == "test"⟩
          ⟨1, 0, none⟩ ⟨2, 0, none⟩ (.str "")) (.str "test") [7]).2.1
      = [⟨1, [7], .str "test"⟩, ⟨2, [7], .str "test"⟩] :=
  ⟨rfl, rfl, rfl, rfl, rfl, rfl⟩

theorem removePatternListenerOp_events (s : EState) (pat : String) (f : LEntry) :
    MapEq (removePatternListenerOp s (.str pat) (.fn f)).1.events s.events := by
  cases hw : removeBucket f.id (s.patternEvents.lookup pat) with
  | ok w => exact (removePatternListenerOp_str_fn s pat f hw).2.1
  | error e => exact (removePatternListenerOp_str_fn_err s pat f hw).2.1

/-- Every interpreter function leaves the literal events map unchanged at
every key: dispatch snapshots, the swap in `emit`, the once-wrapper's
self-removal and nested emissions all restore or never touch it. -/
theorem interp_events_aux : ∀ (fuel : Nat),
    (∀ (B : Nat → Behavior) (rev : Rev) (s : EState) (cs : List Cmd),
      MapEq (runCmds B rev fuel s cs).1.events s.events) ∧
    (∀ (B : Nat → Behavior) (rev : Rev) (s : EState) (x : Option LEntry)
      (args : List Nat),
      MapEq (runListener B rev fuel s x args).1.events s.events) ∧
    (∀ (B : Nat → Behavior) (rev : Rev) (s : EState) (xs : List (Option LEntry))
      (args : List Nat),
      MapEq (runSeq B rev fuel s xs args).1.events s.events) ∧
    (∀ (B : Nat → Behavior) (rev : Rev) (s : EState) (t : EvVal) (args : List Nat),
      MapEq (eeEmit B rev fuel s t args).1.events s.events) ∧
    (∀ (B : Nat → Behavior) (rev : Rev) (s : EState) (t : EvVal) (args : List Nat),
      MapEq (emitA B rev fuel s t args).1.events s.events) ∧
    (∀ (B : Nat → Behavior) (rev : Rev) (s : EState) (t : EvVal) (args : List Nat),
      MapEq (emitB B rev fuel s t args).1.events s.events) := by
  intro fuel
  induction fuel with
  | zero =>
    refine ⟨?_, ?_, ?_, ?_, ?_, ?_⟩
    · intro B rev s cs
      rw [runCmds]
      exact MapEq.refl _
    · intro B rev s x args
      rw [runListener]
      exact MapEq.refl _
    · intro B rev s xs args
      rw [runSeq]
      exact MapEq.refl _
    · intro B rev s t args
      rw [eeEmit]
      exact MapEq.refl _
    · intro B rev s t args
      rw [emitA]
      exact MapEq.refl _
    · intro B rev s t args
      rw [emitB]
      exact MapEq.refl _
  | succ fuel ih =>
    obtain ⟨ihC, ihL, ihS, ihE, ihA, ihB⟩ := ih
    have hC : ∀ (B : Nat → Behavior) (rev : Rev) (s : EState) (cs : List Cmd),
        MapEq (runCmds B rev (fuel + 1) s cs).1.events s.events := by
      intro B rev s cs
      cases cs with
      | nil =>
        rw [runCmds]
        exact MapEq.refl _
      | cons c cs =>
        cases c with
        | throwErr =>
          rw [runCmds.eq_def]
          exact MapEq.refl _
        | emitS name eargs =>
          rw [runCmds.eq_def]
          simp only []
          cases rev with
          | a =>
            simp only []
            cases hr : (emitA B .a fuel s (.str name) eargs).2.2 with
            | error e =>
              simp only []
              exact ihA B .a s (.str name) eargs
            | ok v =>
              simp only []
              exact MapEq.trans
                (ihC B .a (emitA B .a fuel s (.str name) eargs).1 cs)
                (ihA B .a s (.str name) eargs)
          | b =>
            simp only []
            cases hr : (emitB B .b fuel s (.str name) eargs).2.2 with
            | error e =>
              simp only []
              exact ihB B .b s (.str name) eargs
            | ok v =>
              simp only []
              exact MapEq.trans
                (ihC B .b (emitB B .b fuel s (.str name) eargs).1 cs)
                (ihB B .b s (.str name) eargs)
    have hL : ∀ (B : Nat → Behavior) (rev : Rev) (s : EState) (x : Option LEntry)
        (args : List Nat),
        MapEq (runListener B rev (fuel + 1) s x args).1.events s.events := by
      intro B rev s x args
      cases x with
      | none =>
        rw [runListener]
        exact MapEq.refl _
      | some f =>
        rw [runListener]
        simp only []
        cases hbeh : B f.id with
        | plain body =>
          simp only []
          exact ihC B rev s body
        | onceWrap pat inner =>
          simp only []
          cases hrm : (removePatternListenerOp s (.str pat) (.fn f)).2 with
          | some e =>
            simp only []
            exact removePatternListenerOp_events s pat f
          | none =>
            simp only []
            by_cases hmem : f.id ∈ (removePatternListenerOp s (.str pat) (.fn f)).1.invoked
            · rw [if_pos hmem]
              exact removePatternListenerOp_events s pat f
            · rw [if_neg hmem]
              simp only []
              refine MapEq.trans
                (ihL B rev _ (some ⟨inner, 0, none⟩) args) ?_
              exact removePatternListenerOp_events s pat f
    have hS : ∀ (B : Nat → Behavior) (rev : Rev) (s : EState)
        (xs : List (Option LEntry)) (args : List Nat),
        MapEq (runSeq B rev (fuel + 1) s xs args).1.events s.events := by
      intro B rev s xs args
      cases xs with
      | nil =>
        rw [runSeq]
        exact MapEq.refl _
      | cons x xs =>
        rw [runSeq]
        simp only []
        cases hr : (runListener B rev fuel s x args).2.2 with
        | some e =>
          simp only []
          exact ihL B rev s x args
        | none =>
          simp only []
          exact MapEq.trans
            (ihS B rev (runListener B rev fuel s x args).1 xs args)
            (ihL B rev s x args)
    have hE : ∀ (B : Nat → Behavior) (rev : Rev) (s : EState) (t : EvVal)
        (args : List Nat),
        MapEq (eeEmit B rev (fuel + 1) s t args).1.events s.events := by
      intro B rev s t args
      rw [eeEmit]
      simp only []
      split
      · exact MapEq.refl _
      · split
        · exact MapEq.refl _
        · next f hh => exact ihL B rev s (some f) args
        · next xs hh => exact ihS B rev s xs args
    refine ⟨hC, hL, hS, hE, ?_, ?_⟩
    · intro B rev s t args
      rw [emitA]
      by_cases hc : s.regexesCount = 0
      · rw [if_pos hc]
        exact ihE B rev s t args
      · rw [if_neg hc]
        simp only []
        exact mapEq_restore_of (ihE B rev _ t args)
    · intro B rev s t args
      rw [emitB]
      simp only []
      exact mapEq_restore_of (ihE B rev _ t args)

/-! ## Once-listeners: freshness and invocation counting

`onceOnPattern` registers a fresh wrapper closure and hands the wrapped
callback to nobody else: the callback's identity sits in no bucket, so the
only way it ever runs is through a wrapper whose `invoked` flag is consumed.
The development below makes that accounting precise. -/

/-- Listener identity `i` occurs in no bucket of `m`. -/
def FreshMap (m : JsMap BVal) (i : Nat) : Prop :=
  ∀ k b, m.lookup k = some b → i ∉ b.ids

/-- Listener identity `i` occurs in no bucket of either listener map, so no
dispatch snapshot can contain it directly. -/
def Fresh (s : EState) (i : Nat) : Prop :=
  FreshMap s.events i ∧ FreshMap s.patternEvents i

/-- The wrapper's `invoked` flag as a number usable for counting. -/
def flagNat (s : EState) (w : Nat) : Nat := if w ∈ s.invoked then 1 else 0

/-- `inner` is wrapped only by the single wrapper `w` (each `onceOnPattern`
call creates a distinct closure around its own callback). -/
def OnlyWrapper (B : Nat → Behavior) (w inner : Nat) : Prop :=
  ∀ j p, B j = .onceWrap p inner → j = w

/-- The invocation-count allowance of one snapshot element: invoking the
wrapped callback directly is the one place an extra firing may appear. -/
def extraOf (inner : Nat) : Option LEntry → Nat
  | some f => if f.id = inner then 1 else 0
  | none => 0

/-- All listener identities stored anywhere in a map, in list order. -/
def mapIds (m : JsMap BVal) : List Nat := m.flatMap (fun kv => kv.2.ids)

theorem flagNat_congr {s s' : EState} (h : s'.invoked = s.invoked) (w : Nat) :
    flagNat s' w = flagNat s w := by
  unfold flagNat
  rw [h]

theorem flagNat_pushInvoked_le (s : EState) (j w : Nat) :
    flagNat s w ≤ flagNat (pushInvoked s j) w := by
  unfold flagNat pushInvoked
  by_cases hw : w ∈ s.invoked
  · have hc : w ∈ j :: s.invoked := List.mem_cons_of_mem _ hw
    simp [hw, hc]
  · simp [hw]

theorem flagNat_pushInvoked_self {s : EState} {j w : Nat} (h : j = w) :
    flagNat (pushInvoked s j) w = 1 := by
  subst h
  simp [flagNat, pushInvoked]

theorem countId_nil (i : Nat) : countId [] i = 0 := rfl

theorem countId_cons (v : Inv) (tr : List Inv) (i : Nat) :
    countId (v :: tr) i = (if v.lid = i then 1 else 0) + countId tr i := by
  by_cases h : v.lid = i
  · simp [countId, List.filter_cons, h, Nat.add_comm]
  · simp [countId, List.filter_cons, h]

theorem countId_append (t1 t2 : List Inv) (i : Nat) :
    countId (t1 ++ t2) i = countId t1 i + countId t2 i := by
  simp [countId, List.filter_append]

theorem mem_ids_iff {b : BVal} {i : Nat} :
    i ∈ b.ids ↔ ∃ f, some f ∈ b.toList ∧ f.id = i := by
  unfold BVal.ids
  rw [List.mem_filterMap]
  constructor
  · rintro ⟨x, hx, hmap⟩
    cases x with
    | none => simp at hmap
    | some f => exact ⟨f, hx, by simpa using hmap⟩
  · rintro ⟨f, hf, hid⟩
    exact ⟨some f, hf, by simpa using hid⟩

theorem fresh_elem_ne {b : BVal} {i : Nat} (h : i ∉ b.ids) {f : LEntry}
    (hf : some f ∈ b.toList) : f.id ≠ i :=
  fun hid => h (mem_ids_iff.mpr ⟨f, hf, hid⟩)

theorem freshMap_of_mapEq {m m' : JsMap BVal} {i : Nat} (h : MapEq m m')
    (h' : FreshMap m' i) : FreshMap m i := by
  intro k b hb
  exact h' k b (by rw [← h k]; exact hb)

theorem freshMap_setOpt {m : JsMap BVal} {i : Nat} (h : FreshMap m i) (k : String)
    {v? : Option BVal} (hv : ∀ b, v? = some b → i ∉ b.ids) :
    FreshMap (m.setOpt k v?) i := by
  intro k' b hb
  by_cases hk : k' = k
  · subst hk
    rw [JsMap.lookup_setOpt_self] at hb
    exact hv b hb
  · rw [JsMap.lookup_setOpt_ne _ _ hk] at hb
    exact h k' b hb

theorem freshMap_erase {m : JsMap BVal} {i : Nat} (h : FreshMap m i) (k : String) :
    FreshMap (m.erase k) i := by
  intro k' b hb
  by_cases hk : k' = k
  · subst hk
    rw [JsMap.lookup_erase_self] at hb
    cases hb
  · rw [JsMap.lookup_erase_ne _ hk] at hb
    exact h k' b hb

theorem freshMap_set {m : JsMap BVal} {i : Nat} (h : FreshMap m i) (k : String)
    {b0 : BVal} (hb0 : i ∉ b0.ids) : FreshMap (m.set k b0) i := by
  intro k' b hb
  by_cases hk : k' = k
  · subst hk
    rw [JsMap.lookup_set_self] at hb
    exact Option.some.inj hb ▸ hb0
  · rw [JsMap.lookup_set_ne _ _ hk] at hb
    exact h k' b hb

theorem mapIds_cons (k0 : String) (v0 : BVal) (tl : JsMap BVal) :
    mapIds ((k0, v0) :: tl) = v0.ids ++ mapIds tl := by
  simp [mapIds]

theorem freshMap_of_not_mem {m : JsMap BVal} {i : Nat} (h : i ∉ mapIds m) :
    FreshMap m i := by
  induction m with
  | nil =>
    intro k b hb
    cases hb
  | cons hd tl ih =>
    obtain ⟨k0, v0⟩ := hd
    rw [mapIds_cons, List.mem_append] at h
    push_neg at h
    intro k b hb
    by_cases hk : k0 = k
    · simp [JsMap.lookup, hk] at hb
      exact hb ▸ h.1
    · simp [JsMap.lookup, hk] at hb
      exact ih h.2 k b hb

theorem fresh_of_not_mem {s : EState} {i : Nat} (h1 : i ∉ mapIds s.events)
    (h2 : i ∉ mapIds s.patternEvents) : Fresh s i :=
  ⟨freshMap_of_not_mem h1, freshMap_of_not_mem h2⟩

theorem scanRemove_subset {t : Nat} : ∀ {xs xs' : List (Option LEntry)},
    scanRemove t xs = .ok (some xs') → ∀ x ∈ xs', x ∈ xs := by
  intro xs
  induction xs with
  | nil =>
    intro xs' h
    cases h
  | cons y ys ih =>
    intro xs' h x hx
    simp only [scanRemove] at h
    cases hr : scanRemove t ys with
    | error e =>
      rw [hr] at h
      cases h
    | ok u =>
      rw [hr] at h
      cases u with
      | some ys' =>
        simp only [] at h
        have hxs : y :: ys' = xs' := Option.some.inj (Except.ok.inj h)
        subst hxs
        rcases List.mem_cons.mp hx with h0 | h0
        · exact h0 ▸ List.mem_cons_self y ys
        · exact List.mem_cons_of_mem _ (ih hr x h0)
      | none =>
        simp only [] at h
        cases y with
        | some f =>
          simp only [] at h
          by_cases hm : entryMatches f t
          · rw [if_pos hm] at h
            have hxs : ys = xs' := Option.some.inj (Except.ok.inj h)
            subst hxs
            exact List.mem_cons_of_mem _ hx
          · rw [if_neg hm] at h
            cases h
        | none =>
          cases h

theorem removeBucket_fresh {t : Nat} {v? : Option BVal} {w : Option BVal} {i : Nat}
    (hv : ∀ b0, v? = some b0 → i ∉ b0.ids)
    (hw : removeBucket t v? = .ok w) : ∀ b, w = some b → i ∉ b.ids := by
  intro b hb
  subst hb
  cases v? with
  | none =>
    simp only [removeBucket] at hw
    cases hw
  | some b0 =>
    have hb0 : i ∉ b0.ids := hv b0 rfl
    cases b0 with
    | one f =>
      simp only [removeBucket] at hw
      by_cases hm : entryMatches f t
      · rw [if_pos hm] at hw
        cases hw
      · rw [if_neg hm] at hw
        have hfb : BVal.one f = b := Option.some.inj (Except.ok.inj hw)
        exact hfb ▸ hb0
    | arr fs =>
      simp only [removeBucket] at hw
      cases hs : scanRemove t fs with
      | error e =>
        rw [hs] at hw
        cases hw
      | ok u =>
        rw [hs] at hw
        cases u with
        | none =>
          simp only [] at hw
          have hfb : BVal.arr fs = b := Option.some.inj (Except.ok.inj hw)
          exact hfb ▸ hb0
        | some fs' =>
          cases fs' with
          | nil =>
            simp only [] at hw
            cases hw
          | cons z zs =>
            simp only [] at hw
            have hfb : BVal.arr (z :: zs) = b := Option.some.inj (Except.ok.inj hw)
            rw [← hfb]
            intro hmem
            rcases mem_ids_iff.mp hmem with ⟨f', hf', hid⟩
            exact hb0 (mem_ids_iff.mpr ⟨f', scanRemove_subset hs _ hf', hid⟩)

theorem cleanupBucket_eq_some {w : Option BVal} {b : BVal}
    (h : cleanupBucket w = some b) : w = some b := by
  cases w with
  | none => cases h
  | some b0 =>
    simp only [cleanupBucket] at h
    by_cases hl : b0.jsLength = 0
    · rw [if_pos hl] at h
      cases h
    · rw [if_neg hl] at h
      exact congrArg some (Option.some.inj h)

/-- The wrapper's self-removal neither introduces the wrapped callback's
identity into a bucket nor touches the `invoked` flags. -/
theorem removePatternListenerOp_fresh {s : EState} {pat : String} {f : LEntry}
    {i : Nat} (h : Fresh s i) :
    Fresh (removePatternListenerOp s (.str pat) (.fn f)).1 i ∧
    (removePatternListenerOp s (.str pat) (.fn f)).1.invoked = s.invoked := by
  cases hw : removeBucket f.id (s.patternEvents.lookup pat) with
  | error e =>
    obtain ⟨-, hev, hpe, -, -, -, hinv⟩ := removePatternListenerOp_str_fn_err s pat f hw
    refine ⟨⟨freshMap_of_mapEq hev h.1, ?_⟩, hinv⟩
    rw [hpe]
    exact h.2
  | ok w =>
    obtain ⟨-, hev, hpe, -, -, -, hinv⟩ := removePatternListenerOp_str_fn s pat f hw
    refine ⟨⟨freshMap_of_mapEq hev h.1, ?_⟩, hinv⟩
    rw [hpe]
    cases hc : cleanupBucket w with
    | none =>
      exact freshMap_erase h.2 pat
    | some b =>
      have hwb : w = some b := cleanupBucket_eq_some hc
      have hfresh : i ∉ b.ids :=
        removeBucket_fresh (fun b0 hb0 => h.2 pat b0 hb0) hw b hwb
      exact freshMap_set h.2 pat hfresh

/-- The matching fold can only produce identities drawn from existing
buckets. -/
theorem getMatching_fold_fresh (pe : JsMap BVal) (n : String) {i : Nat}
    (hpe : ∀ k b, pe.lookup k = some b → i ∉ b.ids) :
    ∀ (rs : List (String × JsRegex)) (acc : Option BVal),
      (∀ m, acc = some m → i ∉ m.ids) →
      ∀ m, (rs.foldl
        (fun acc pr =>
          if pr.2.test n then
            match acc with
            | none => pe.lookup pr.1
            | some m =>
              let listeners : List (Option LEntry) :=
                match pe.lookup pr.1 with
                | some (.arr xs) => xs
                | some (.one f) => [some f]
                | none => [none]
              some (.arr (m.toList ++ listeners))
          else acc) acc) = some m → i ∉ m.ids := by
  intro rs
  induction rs with
  | nil =>
    intro acc hacc m hm
    exact hacc m hm
  | cons pr rs ih =>
    intro acc hacc
    apply ih
    intro m hm
    simp only at hm
    by_cases ht : pr.2.test n = true
    · rw [if_pos ht] at hm
      cases acc with
      | none => exact hpe pr.1 m hm
      | some m0 =>
        simp only at hm
        have hm' := Option.some.inj hm
        subst hm'
        cases hb : pe.lookup pr.1 with
        | none =>
          intro hmem
          rcases mem_ids_iff.mp hmem with ⟨f, hf, hid⟩
          simp only [BVal.toList] at hf
          rcases List.mem_append.mp hf with hf0 | hf1
          · exact hacc m0 rfl (mem_ids_iff.mpr ⟨f, hf0, hid⟩)
          · simp at hf1
        | some b =>
          cases b with
          | one g =>
            intro hmem
            rcases mem_ids_iff.mp hmem with ⟨f, hf, hid⟩
            simp only [BVal.toList] at hf
            rcases List.mem_append.mp hf with hf0 | hf1
            · exact hacc m0 rfl (mem_ids_iff.mpr ⟨f, hf0, hid⟩)
            · have hfg : f = g := by simpa using hf1
              exact hpe pr.1 (.one g) hb
                (mem_ids_iff.mpr ⟨g, by simp [BVal.toList], hfg ▸ hid⟩)
          | arr xs =>
            intro hmem
            rcases mem_ids_iff.mp hmem with ⟨f, hf, hid⟩
            simp only [BVal.toList] at hf
            rcases List.mem_append.mp hf with hf0 | hf1
            · exact hacc m0 rfl (mem_ids_iff.mpr ⟨f, hf0, hid⟩)
            · exact hpe pr.1 (.arr xs) hb (mem_ids_iff.mpr ⟨f, hf1, hid⟩)
    · have ht' : ¬ (pr.2.test n = true) := ht
      rw [if_neg ht'] at hm
      exact hacc m hm

/-- A value `_getMatching` produces never contains a fresh identity. -/
theorem getMatching_fresh {s : EState} {i : Nat} (h : Fresh s i) :
    ∀ (t : EvVal) (m : BVal), getMatching s t = some m → i ∉ m.ids := by
  intro t m hm
  cases t with
  | str n =>
    have := getMatching_fold_fresh s.patternEvents n h.2 s.regexes
      (s.events.lookup n) (fun m0 hm0 => h.1 n m0 hm0) m
    apply this
    simpa [getMatching, EvVal.isStr, EvVal.key] using hm
  | regex r =>
    rw [getMatching_not_str s (.regex r) rfl] at hm
    exact h.1 _ m hm
  | other k =>
    rw [getMatching_not_str s (.other k) rfl] at hm
    exact h.1 _ m hm

/-- C4: `emit` (in both revisions) leaves the literal bucket stored under
every name — in particular the emitted one — reading exactly as before the
call, whatever the listeners do (return normally, throw, or re-emit), and
also when the overall call ends in an error: the returned state is always the
restored one, so the error propagates only after restoration. -/
theorem C4_emit_restores_literal_buckets (B : Nat → Behavior) (rev : Rev)
    (fuel : Nat) (s : EState) (t : EvVal) (args : List Nat) :
    MapEq (emitA B rev fuel s t args).1.events s.events ∧
    MapEq (emitB B rev fuel s t args).1.events s.events :=
  ⟨(interp_events_aux fuel).2.2.2.2.1 B rev s t args,
   (interp_events_aux fuel).2.2.2.2.2 B rev s t args⟩

/-- The swap-dispatch-restore body shared by both revisions' `emit` preserves
freshness, and its invocation count is bounded by the flag increase, given
those facts for the inner dispatch. -/
theorem once_swap_step {w inner : Nat} {fuel : Nat}
    {B : Nat → Behavior} {rev : Rev} {s sSw : EState} {t : EvVal} {args : List Nat}
    (hswInv : sSw.invoked = s.invoked)
    (ih : Fresh (eeEmit B rev fuel sSw t args).1 inner ∧
      countId (eeEmit B rev fuel sSw t args).2.1 inner + flagNat sSw w
        ≤ flagNat (eeEmit B rev fuel sSw t args).1 w)
    (hF : Fresh s inner) :
    Fresh { (eeEmit B rev fuel sSw t args).1 with
      events := (eeEmit B rev fuel sSw t args).1.events.setOpt t.key
        (s.events.lookup t.key) } inner ∧
    countId (eeEmit B rev fuel sSw t args).2.1 inner + flagNat s w
      ≤ flagNat { (eeEmit B rev fuel sSw t args).1 with
          events := (eeEmit B rev fuel sSw t args).1.events.setOpt t.key
            (s.events.lookup t.key) } w := by
  obtain ⟨hF1, hc1⟩ := ih
  refine ⟨⟨freshMap_setOpt hF1.1 t.key (fun b hb => hF.1 t.key b hb), hF1.2⟩, ?_⟩
  have e1 : flagNat sSw w = flagNat s w := flagNat_congr hswInv w
  have e2 : flagNat { (eeEmit B rev fuel sSw t args).1 with
      events := (eeEmit B rev fuel sSw t args).1.events.setOpt t.key
        (s.events.lookup t.key) } w = flagNat (eeEmit B rev fuel sSw t args).1 w := rfl
  omega

/-- The at-most-once accounting, by induction on fuel simultaneously over all
interpreter functions: provided the wrapped callback's identity `inner` sits
in no bucket and only the wrapper `w` wraps it, every dispatch keeps `inner`
out of the buckets, and the number of times `inner` runs is bounded by the
increase of `w`'s `invoked` flag (a snapshot element equal to the callback
itself is the one place an extra firing may enter, accounted by
`extraOf`). -/
theorem interp_once_aux (w inner : Nat) : ∀ (fuel : Nat),
    (∀ (B : Nat → Behavior) (rev : Rev) (s : EState) (cs : List Cmd),
      OnlyWrapper B w inner → Fresh s inner →
      Fresh (runCmds B rev fuel s cs).1 inner ∧
      countId (runCmds B rev fuel s cs).2.1 inner + flagNat s w
        ≤ flagNat (runCmds B rev fuel s cs).1 w) ∧
    (∀ (B : Nat → Behavior) (rev : Rev) (s : EState) (x : Option LEntry)
      (args : List Nat),
      OnlyWrapper B w inner → Fresh s inner →
      Fresh (runListener B rev fuel s x args).1 inner ∧
      countId (runListener B rev fuel s x args).2.1 inner + flagNat s w
        ≤ flagNat (runListener B rev fuel s x args).1 w + extraOf inner x) ∧
    (∀ (B : Nat → Behavior) (rev : Rev) (s : EState) (xs : List (Option LEntry))
      (args : List Nat),
      OnlyWrapper B w inner → Fresh s inner →
      (∀ f : LEntry, some f ∈ xs → f.id ≠ inner) →
      Fresh (runSeq B rev fuel s xs args).1 inner ∧
      countId (runSeq B rev fuel s xs args).2.1 inner + flagNat s w
        ≤ flagNat (runSeq B rev fuel s xs args).1 w) ∧
    (∀ (B : Nat → Behavior) (rev : Rev) (s : EState) (t : EvVal) (args : List Nat),
      OnlyWrapper B w inner → Fresh s inner →
      Fresh (eeEmit B rev fuel s t args).1 inner ∧
      countId (eeEmit B rev fuel s t args).2.1 inner + flagNat s w
        ≤ flagNat (eeEmit B rev fuel s t args).1 w) ∧
    (∀ (B : Nat → Behavior) (rev : Rev) (s : EState) (t : EvVal) (args : List Nat),
      OnlyWrapper B w inner → Fresh s inner →
      Fresh (emitA B rev fuel s t args).1 inner ∧
      countId (emitA B rev fuel s t args).2.1 inner + flagNat s w
        ≤ flagNat (emitA B rev fuel s t args).1 w) ∧
    (∀ (B : Nat → Behavior) (rev : Rev) (s : EState) (t : EvVal) (args : List Nat),
      OnlyWrapper B w inner → Fresh s inner →
      Fresh (emitB B rev fuel s t args).1 inner ∧
      countId (emitB B rev fuel s t args).2.1 inner + flagNat s w
        ≤ flagNat (emitB B rev fuel s t args).1 w) := by
  intro fuel
  induction fuel with
  | zero =>
    refine ⟨?_, ?_, ?_, ?_, ?_, ?_⟩
    · intro B rev s cs hOW hF
      rw [runCmds]
      exact ⟨hF, by simp [countId]⟩
    · intro B rev s x args hOW hF
      rw [runListener]
      exact ⟨hF, by simp [countId]⟩
    · intro B rev s xs args hOW hF hxs
      rw [runSeq]
      exact ⟨hF, by simp [countId]⟩
    · intro B rev s t args hOW hF
      rw [eeEmit]
      exact ⟨hF, by simp [countId]⟩
    · intro B rev s t args hOW hF
      rw [emitA]
      exact ⟨hF, by simp [countId]⟩
    · intro B rev s t args hOW hF
      rw [emitB]
      exact ⟨hF, by simp [countId]⟩
  | succ fuel ih =>
    obtain ⟨ihC, ihL, ihS, ihE, ihA, ihB⟩ := ih
    have hC : ∀ (B : Nat → Behavior) (rev : Rev) (s : EState) (cs : List Cmd),
        OnlyWrapper B w inner → Fresh s inner →
        Fresh (runCmds B rev (fuel + 1) s cs).1 inner ∧
        countId (runCmds B rev (fuel + 1) s cs).2.1 inner + flagNat s w
          ≤ flagNat (runCmds B rev (fuel + 1) s cs).1 w := by
      intro B rev s cs hOW hF
      cases cs with
      | nil =>
        rw [runCmds]
        exact ⟨hF, by simp [countId]⟩
      | cons c cs =>
        cases c with
        | throwErr =>
          rw [runCmds.eq_def]
          exact ⟨hF, by simp [countId]⟩
        | emitS name eargs =>
          rw [runCmds.eq_def]
          simp only []
          cases rev with
          | a =>
            simp only []
            obtain ⟨hF1, hc1⟩ := ihA B .a s (.str name) eargs hOW hF
            cases hr : (emitA B .a fuel s (.str name) eargs).2.2 with
            | error e =>
              simp only []
              exact ⟨hF1, hc1⟩
            | ok v =>
              simp only []
              obtain ⟨hF2, hc2⟩ :=
                ihC B .a (emitA B .a fuel s (.str name) eargs).1 cs hOW hF1
              refine ⟨hF2, ?_⟩
              rw [countId_append]
              omega
          | b =>
            simp only []
            obtain ⟨hF1, hc1⟩ := ihB B .b s (.str name) eargs hOW hF
            cases hr : (emitB B .b fuel s (.str name) eargs).2.2 with
            | error e =>
              simp only []
              exact ⟨hF1, hc1⟩
            | ok v =>
              simp only []
              obtain ⟨hF2, hc2⟩ :=
                ihC B .b (emitB B .b fuel s (.str name) eargs).1 cs hOW hF1
              refine ⟨hF2, ?_⟩
              rw [countId_append]
              omega
    have hL : ∀ (B : Nat → Behavior) (rev : Rev) (s : EState) (x : Option LEntry)
        (args : List Nat),
        OnlyWrapper B w inner → Fresh s inner →
        Fresh (runListener B rev (fuel + 1) s x args).1 inner ∧
        countId (runListener B rev (fuel + 1) s x args).2.1 inner + flagNat s w
          ≤ flagNat (runListener B rev (fuel + 1) s x args).1 w + extraOf inner x := by
      intro B rev s x args hOW hF
      cases x with
      | none =>
        rw [runListener]
        exact ⟨hF, by simp [countId]⟩
      | some f =>
        rw [runListener]
        simp only []
        cases hbeh : B f.id with
        | plain body =>
          simp only []
          obtain ⟨hF1, hc1⟩ := ihC B rev s body hOW hF
          refine ⟨hF1, ?_⟩
          simp only [countId_cons, extraOf]
          by_cases hfi : f.id = inner
          · simp only [if_pos hfi]
            omega
          · simp only [if_neg hfi]
            omega
        | onceWrap pat inner' =>
          simp only []
          obtain ⟨hFrm, hinvrm⟩ :=
            @removePatternListenerOp_fresh s pat f inner hF
          have hflagrm :
              flagNat (removePatternListenerOp s (.str pat) (.fn f)).1 w
                = flagNat s w := flagNat_congr hinvrm w
          cases hrm : (removePatternListenerOp s (.str pat) (.fn f)).2 with
          | some e =>
            simp only []
            refine ⟨hFrm, ?_⟩
            simp only [countId_cons, countId_nil, extraOf]
            by_cases hfi : f.id = inner
            · simp only [if_pos hfi]
              omega
            · simp only [if_neg hfi]
              omega
          | none =>
            simp only []
            by_cases hmem :
                f.id ∈ (removePatternListenerOp s (.str pat) (.fn f)).1.invoked
            · rw [if_pos hmem]
              refine ⟨hFrm, ?_⟩
              simp only [countId_cons, countId_nil, extraOf]
              by_cases hfi : f.id = inner
              · simp only [if_pos hfi]
                omega
              · simp only [if_neg hfi]
                omega
            · rw [if_neg hmem]
              simp only []
              obtain ⟨hFr, hcr⟩ := ihL B rev
                (pushInvoked (removePatternListenerOp s (.str pat) (.fn f)).1 f.id)
                (some ⟨inner', 0, none⟩) args hOW ⟨hFrm.1, hFrm.2⟩
              refine ⟨hFr, ?_⟩
              have hex : extraOf inner (some (⟨inner', 0, none⟩ : LEntry))
                  = if inner' = inner then 1 else 0 := rfl
              rw [hex] at hcr
              have hle : flagNat (removePatternListenerOp s (.str pat) (.fn f)).1 w
                  ≤ flagNat
                    (pushInvoked (removePatternListenerOp s (.str pat) (.fn f)).1 f.id)
                    w :=
                flagNat_pushInvoked_le _ f.id w
              simp only [countId_cons, extraOf]
              by_cases hii : inner' = inner
              · have hfw : f.id = w := hOW f.id pat (by rw [hbeh, hii])
                have hs0 : flagNat s w = 0 := by
                  have hni : w ∉ s.invoked := by
                    rw [← hinvrm, ← hfw]
                    exact hmem
                  simp [flagNat, hni]
                have hs2 :=
                  flagNat_pushInvoked_self
                    (s := (removePatternListenerOp s (.str pat) (.fn f)).1) hfw
                rw [if_pos hii] at hcr
                by_cases hfi : f.id = inner
                · simp only [if_pos hfi]
                  omega
                · simp only [if_neg hfi]
                  omega
              · rw [if_neg hii] at hcr
                by_cases hfi : f.id = inner
                · simp only [if_pos hfi]
                  omega
                · simp only [if_neg hfi]
                  omega
    have hS : ∀ (B : Nat → Behavior) (rev : Rev) (s : EState)
        (xs : List (Option LEntry)) (args : List Nat),
        OnlyWrapper B w inner → Fresh s inner →
        (∀ f : LEntry, some f ∈ xs → f.id ≠ inner) →
        Fresh (runSeq B rev (fuel + 1) s xs args).1 inner ∧
        countId (runSeq B rev (fuel + 1) s xs args).2.1 inner + flagNat s w
          ≤ flagNat (runSeq B rev (fuel + 1) s xs args).1 w := by
      intro B rev s xs args hOW hF hxs
      cases xs with
      | nil =>
        rw [runSeq]
        exact ⟨hF, by simp [countId]⟩
      | cons x xs =>
        rw [runSeq]
        simp only []
        obtain ⟨hF1, hc1⟩ := ihL B rev s x args hOW hF
        have hx0 : extraOf inner x = 0 := by
          cases x with
          | none => rfl
          | some f =>
            simp [extraOf, hxs f (List.mem_cons_self (some f) xs)]
        rw [hx0] at hc1
        cases hr : (runListener B rev fuel s x args).2.2 with
        | some e =>
          simp only []
          exact ⟨hF1, by omega⟩
        | none =>
          simp only []
          obtain ⟨hF2, hc2⟩ := ihS B rev (runListener B rev fuel s x args).1 xs args
            hOW hF1 (fun f hf => hxs f (List.mem_cons_of_mem x hf))
          refine ⟨hF2, ?_⟩
          rw [countId_append]
          omega
    have hE : ∀ (B : Nat → Behavior) (rev : Rev) (s : EState) (t : EvVal)
        (args : List Nat),
        OnlyWrapper B w inner → Fresh s inner →
        Fresh (eeEmit B rev (fuel + 1) s t args).1 inner ∧
        countId (eeEmit B rev (fuel + 1) s t args).2.1 inner + flagNat s w
          ≤ flagNat (eeEmit B rev (fuel + 1) s t args).1 w := by
      intro B rev s t args hOW hF
      rw [eeEmit]
      simp only []
      split
      · exact ⟨hF, by simp [countId]⟩
      · split
        · exact ⟨hF, by simp [countId]⟩
        · next f hh =>
          obtain ⟨hF1, hc1⟩ := ihL B rev s (some f) args hOW hF
          have hfne : f.id ≠ inner :=
            fresh_elem_ne (hF.1 t.key _ hh) (by simp [BVal.toList])
          have hx0 : extraOf inner (some f) = 0 := by
            simp [extraOf, hfne]
          rw [hx0] at hc1
          refine ⟨hF1, ?_⟩
          simp only []
          omega
        · next xs hh =>
          have hxs : ∀ g : LEntry, some g ∈ xs → g.id ≠ inner := by
            intro g hg
            exact fresh_elem_ne (hF.1 t.key _ hh) hg
          obtain ⟨hF1, hc1⟩ := ihS B rev s xs args hOW hF hxs
          refine ⟨hF1, ?_⟩
          simp only []
          omega
    refine ⟨hC, hL, hS, hE, ?_, ?_⟩
    · intro B rev s t args hOW hF
      rw [emitA]
      by_cases hc : s.regexesCount = 0
      · rw [if_pos hc]
        exact ihE B rev s t args hOW hF
      · rw [if_neg hc]
        simp only []
        have hFsE : Fresh { s with event := t } inner := ⟨hF.1, hF.2⟩
        exact once_swap_step rfl
          (ihE B rev _ t args hOW
            ⟨freshMap_setOpt hF.1 t.key
              (fun b hb => getMatching_fresh hFsE t b hb), hF.2⟩)
          hF
    · intro B rev s t args hOW hF
      rw [emitB]
      simp only []
      have hFsE : Fresh { s with event := t } inner := ⟨hF.1, hF.2⟩
      exact once_swap_step rfl
        (ihE B rev _ t args hOW
          ⟨freshMap_setOpt hF.1 t.key
            (fun b hb => getMatching_fresh hFsE t b hb), hF.2⟩)
        hF

theorem flagNat_le_one (s : EState) (w : Nat) : flagNat s w ≤ 1 := by
  unfold flagNat
  split
  · exact le_refl 1
  · exact Nat.zero_le 1

/-! ## C5: a concrete `onceOnPattern` scenario

A listener (identity 5) registered once on pattern `"^a"` through
`onceOnPattern`, wrapped by the fresh `invokeOnce` closure of identity 9. -/

/-- `new RegExp("^a")`, to the extent the scenario observes it: it matches
the emitted name `"abc"`. -/
def c5Compile : String → String → Bool := fun _ x => x == "abc"

/-- The wrapped callback. -/
def c5Inner : LEntry := ⟨5, 0, none⟩

/-- The emitter after `onceOnPattern("^a", callback)` on a fresh instance. -/
def c5State0 : EState :=
  (onceOnPattern c5Compile initState (.str "^a") (.fn c5Inner) 9).1

/-- Runtime behaviours: 9 is the `invokeOnce` wrapper; everybody else
(including the wrapped callback) returns immediately. -/
def c5B : Nat → Behavior := fun j => if j == 9 then .onceWrap "^a" 5 else .plain []

/-- Behaviours where the wrapped callback synchronously re-emits the same
matching name `"abc"`. -/
def c5Bre : Nat → Behavior :=
  fun j => if j == 9 then .onceWrap "^a" 5 else .plain [.emitS "abc" []]

theorem c5B_onlyWrapper : OnlyWrapper c5B 9 5 := by
  intro j p h
  by_cases hj : j = 9
  · exact hj
  · exfalso
    unfold c5B at h
    rw [if_neg (by simp [hj])] at h
    exact Behavior.noConfusion h

theorem c5Bre_onlyWrapper : OnlyWrapper c5Bre 9 5 := by
  intro j p h
  by_cases hj : j = 9
  · exact hj
  · exfalso
    unfold c5Bre at h
    rw [if_neg (by simp [hj])] at h
    exact Behavior.noConfusion h

theorem c5State0_fresh : Fresh c5State0 5 :=
  fresh_of_not_mem (by decide) (by decide)

/-- C5: a callback registered through `onceOnPattern` is invoked at most once
in total.  First conjunct, the general bound: for any listener programme run
from any state in which the callback's identity sits in no bucket and only
its own wrapper wraps it, the callback appears at most once in the dispatch
trace — covering re-emission from inside the callback, because the wrapper
removes itself from the registry and sets its `invoked` flag before the
callback runs.  The remaining conjuncts evaluate the claim's scenario on the
string-pattern revision: two successive `emit('abc')` fire the callback
exactly once in total; after the first emit the matching-listener count for
`'abc'` is 0, excluding it (it was 1 before); and a callback that itself
re-emits `'abc'` still fires exactly once. -/
theorem C5_once_at_most_once :
    (∀ (B : Nat → Behavior) (w inner : Nat) (rev : Rev) (fuel : Nat) (s : EState)
      (cs : List Cmd), OnlyWrapper B w inner → Fresh s inner →
      countId (runCmds B rev fuel s cs).2.1 inner ≤ 1) ∧
    countId (runCmds c5B .b 30 c5State0 [.emitS "abc" [], .emitS "abc" []]).2.1 5
      = 1 ∧
    matchingListenerCountOp c5State0 (.str "abc") = 1 ∧
    matchingListenerCountOp (emitB c5B .b 20 c5State0 (.str "abc") []).1 (.str "abc")
      = 0 ∧
    countId (runCmds c5Bre .b 30 c5State0 [.emitS "abc" []]).2.1 5 = 1 := by
  refine ⟨?_, by decide, by decide, by decide, by decide⟩
  intro B w inner rev fuel s cs hOW hF
  obtain ⟨-, hc⟩ := (interp_once_aux w inner fuel).1 B rev s cs hOW hF
  have h1 := flagNat_le_one (runCmds B rev fuel s cs).1 w
  omega

/-- C5 witness: the general bound applied to the scenario emitter, wrapper 9
around callback 5, with one emit of `"abc"`. -/
theorem C5_once_at_most_once_witness :
    OnlyWrapper c5B 9 5 ∧ Fresh c5State0 5 ∧
    countId (runCmds c5B .b 12 c5State0 [.emitS "abc" []]).2.1 5 ≤ 1 :=
  ⟨c5B_onlyWrapper, c5State0_fresh,
   C5_once_at_most_once.1 c5B 9 5 .b 12 c5State0 [.emitS "abc" []]
     c5B_onlyWrapper c5State0_fresh⟩

end PatternEmitter
